import Mathlib

/-!
Verification of the SustainSync frontend CSV workspace
(`DataEntry.jsx`) and the bills table sorting logic (`Tables.jsx`,
and the number comparator of the dashboard table component).

Strings are modelled as lists of characters (`Str`).  JavaScript
builtins used by the code (`String.prototype.trim`, `Number`,
`Array.prototype.sort`, …) are given executable models; each model
notes the fragment of the builtin it covers.
-/

namespace SustainSync

/-- JavaScript strings, modelled as lists of characters. -/
abbrev Str := List Char

/-- Characters removed by `String.prototype.trim` (the common ASCII
whitespace; exotic Unicode space characters are not modelled). -/
def isJsWhitespace (c : Char) : Bool :=
  c = ' ' ∨ c = '\t' ∨ c = '\n' ∨ c = '\r' ∨ c = '\x0b' ∨ c = '\x0c'

/-- Model of `String.prototype.trim`. -/
def jsTrim (s : Str) : Str :=
  ((s.dropWhile isJsWhitespace).reverse.dropWhile isJsWhitespace).reverse

/-! ## The CSV parser (`parseCsv` in `DataEntry.jsx`)

The source scans the text character by character with mutable state
`(currentField, currentRow, inQuotes, rows)`; `scanCsv` carries that
state through a structural recursion on the remaining characters.
`pushRow` is the source's `pushRow` (it skips an empty `currentRow`);
the `pushField` of the source is inlined as `row ++ [field]`. -/

/-- The source's `pushRow`: append the current row unless it is empty. -/
def pushRow (row : List Str) (rows : List (List Str)) : List (List Str) :=
  if row.isEmpty then rows else rows ++ [row]

/-- The character scan loop of `parseCsv`, written as one pattern per
branch of the source's `if`/`else if` chain: a doubled quote inside
quotes, a quote toggling `inQuotes`, an unquoted comma ending the
field, an unquoted line ending (`'\r\n'` consumed as one terminator,
then lone `'\r'` and `'\n'`) ending field and row, and every other
character (or a separator while inside quotes) accumulating into the
current field. -/
def scanCsv : Str → Bool → Str → List Str → List (List Str) → List (List Str)
  | [], _, field, row, rows => pushRow (row ++ [field]) rows
  | '"' :: '"' :: rest2, true, field, row, rows =>
    scanCsv rest2 true (field ++ ['"']) row rows
  | '"' :: rest, true, field, row, rows => scanCsv rest false field row rows
  | '"' :: rest, false, field, row, rows => scanCsv rest true field row rows
  | ',' :: rest, false, _field, row, rows =>
    scanCsv rest false [] (row ++ [_field]) rows
  | '\r' :: '\n' :: rest2, false, field, row, rows =>
    scanCsv rest2 false [] [] (pushRow (row ++ [field]) rows)
  | '\r' :: rest, false, field, row, rows =>
    scanCsv rest false [] [] (pushRow (row ++ [field]) rows)
  | '\n' :: rest, false, field, row, rows =>
    scanCsv rest false [] [] (pushRow (row ++ [field]) rows)
  | c :: rest, inQuotes, field, row, rows =>
    scanCsv rest inQuotes (field ++ [c]) row rows

/-- A row every cell of which is the empty string. -/
def isEmptyRow (row : List Str) : Bool :=
  row.all (fun cell => cell.isEmpty)

/-- The source's trailing loop: `while` the last row is all-empty, pop it. -/
def dropTrailingEmptyRows (rows : List (List Str)) : List (List Str) :=
  ((rows.reverse.dropWhile isEmptyRow)).reverse

/-- Result of `parseCsv`: `{ headers, rows }`. -/
structure ParsedCsv where
  headers : List Str
  rows : List (List Str)
deriving DecidableEq

/-- `parseCsv`: scan the text, drop trailing empty rows, and split off
the header row (`const [headerRow = [], ...dataRows] = rows`). -/
def parseCsv (text : Str) : ParsedCsv :=
  match dropTrailingEmptyRows (scanCsv text false [] [] []) with
  | [] => ⟨[], []⟩
  | headerRow :: dataRows => ⟨headerRow, dataRows⟩

/-! ## The CSV stringifier (`stringifyCsv` in `DataEntry.jsx`)

A record (JS object) is an association list of field names to values;
a cell value of `none` models `null`/`undefined` (looked-up fields that
are absent behave like `undefined`, which `escapeCell` renders the same
way as `null`). -/

/-- A JS record as handed to `stringifyCsv`: field name to value,
`none` standing for `null`. -/
abbrev Record := List (Str × Option Str)

/-- `row[header]`: `none` for an absent field (JS `undefined`) or a
`null` value; both render identically in `escapeCell`. -/
def getField (r : Record) (f : Str) : Option Str :=
  match r with
  | [] => none
  | (k, v) :: rest => if k = f then v else getField rest f

/-- `value === null || value === undefined ? '' : String(value)`. -/
def renderCell (v : Option Str) : Str := v.getD []

/-- The test `/[",\n]/.test(text)` of `escapeCell`. -/
def needsQuoting (s : Str) : Bool :=
  s.any (fun c => c = '"' ∨ c = ',' ∨ c = '\n')

/-- `text.replace(/"/g, '""')`. -/
def doubleQuotes : Str → Str
  | [] => []
  | c :: rest =>
    if c = '"' then '"' :: '"' :: doubleQuotes rest
    else c :: doubleQuotes rest

/-- `escapeCell` of `stringifyCsv`. -/
def escapeCell (v : Option Str) : Str :=
  let text := renderCell v
  if needsQuoting text then '"' :: (doubleQuotes text ++ ['"'])
  else text

/-- One CSV line: escaped cells joined with commas. -/
def csvLine (cells : List (Option Str)) : Str :=
  List.intercalate [','] (cells.map escapeCell)

/-- `stringifyCsv(headers, rows)`: the header line followed by one line
per record, lines joined with `'\n'`. -/
def stringifyCsv (headers : List Str) (rows : List Record) : Str :=
  let headerLine := csvLine (headers.map some)
  let dataLines := rows.map (fun row => csvLine (headers.map (fun h => getField row h)))
  List.intercalate ['\n'] (headerLine :: dataLines)

/-! ## The `Number` coercion

`Number(v)` is modelled by `JSNum`: `nan`, the two infinities, and
finite values as exact rationals.  String coercion covers trimmed
decimal literals (optional sign, integer/fraction digits, optional
exponent) and the `Infinity` forms; hexadecimal/octal/binary literals
and overflow of huge decimal literals to `Infinity` are not modelled —
no claim depends on them. -/

/-- A JavaScript number: `NaN`, `±Infinity`, or a finite value. -/
inductive JSNum where
  | nan
  | posInf
  | negInf
  | fin (q : ℚ)
deriving DecidableEq

/-- `Number.isNaN`. -/
def jsIsNaN (n : JSNum) : Bool := n = JSNum.nan

/-- `Number.isFinite`. -/
def jsIsFinite (n : JSNum) : Bool :=
  match n with
  | JSNum.fin _ => true
  | _ => false

/-- Nonempty all-digit strings. -/
def allDigits (s : Str) : Bool := ¬ s.isEmpty ∧ s.all Char.isDigit

/-- Digit-string value (caller checks `allDigits`). -/
def digitsToNat (s : Str) : ℕ :=
  s.foldl (fun acc c => 10 * acc + (c.toNat - 48)) 0

/-- Split a numeric literal at the first `e`/`E`. -/
def splitExpAux : Str → Str → Str × Option Str
  | [], acc => (acc.reverse, none)
  | c :: rest, acc =>
    if c = 'e' ∨ c = 'E' then (acc.reverse, some rest)
    else splitExpAux rest (c :: acc)

/-- Split a numeric literal into mantissa and optional exponent part. -/
def splitExp (s : Str) : Str × Option Str := splitExpAux s []

/-- Parse an unsigned decimal mantissa: `digits`, `digits.digits`,
`digits.`, or `.digits`. -/
def parseMantissa (s : Str) : Option ℚ :=
  match s.splitOn '.' with
  | [i] => if allDigits i then some (digitsToNat i) else none
  | [i, f] =>
    if i.all Char.isDigit ∧ f.all Char.isDigit ∧ (¬ i.isEmpty ∨ ¬ f.isEmpty) then
      some ((digitsToNat i : ℚ) + (digitsToNat f : ℚ) / ((10 : ℚ) ^ f.length))
    else none
  | _ => none

/-- Parse an exponent part: optional sign and digits. -/
def parseExponent (s : Str) : Option ℤ :=
  match s with
  | '+' :: r => if allDigits r then some (digitsToNat r) else none
  | '-' :: r => if allDigits r then some (-(digitsToNat r : ℤ)) else none
  | r => if allDigits r then some (digitsToNat r) else none

/-- Parse an unsigned decimal literal with optional exponent. -/
def parseDecimal (s : Str) : Option ℚ :=
  match splitExp s with
  | (m, none) => parseMantissa m
  | (m, some e) =>
    match parseMantissa m, parseExponent e with
    | some q, some k => some (q * (10 : ℚ) ^ k)
    | _, _ => none

/-- `Number(string)`: trim, empty means `0`, else optional sign
followed by `Infinity` or a decimal literal; anything else is `NaN`. -/
def strToNumber (s : Str) : JSNum :=
  let t := jsTrim s
  if t.isEmpty then JSNum.fin 0
  else
    let signNeg : Bool := match t with | '-' :: _ => true | _ => false
    let body : Str := match t with | '+' :: r => r | '-' :: r => r | r => r
    if body = "Infinity".toList then
      if signNeg then JSNum.negInf else JSNum.posInf
    else
      match parseDecimal body with
      | some q => JSNum.fin (if signNeg then -q else q)
      | none => JSNum.nan

/-! ## Row validation (`validateRows` in `DataEntry.jsx`)

A validated row is a JS object whose field values are `JSVal`s:
`undef` models both an absent field and an explicit `undefined`,
`null` models `null`, and `str` a string value (the only values the
workspace actually stores). -/

/-- A JS value as inspected by `validateRows`. -/
inductive JSVal where
  | undef
  | null
  | str (s : Str)
deriving DecidableEq

/-- A row under validation: field name to value. -/
abbrev VRow := List (Str × JSVal)

/-- `row[field]` for validation rows; absent fields read `undefined`. -/
def vGet (r : VRow) (f : Str) : JSVal :=
  match r with
  | [] => JSVal.undef
  | (k, v) :: rest => if k = f then v else vGet rest f

/-- `String(v)`. -/
def jsValToString (v : JSVal) : Str :=
  match v with
  | JSVal.undef => "undefined".toList
  | JSVal.null => "null".toList
  | JSVal.str s => s

/-- Truthiness of a `JSVal` (`undefined`, `null` and `''` are falsy). -/
def jsTruthy (v : JSVal) : Bool :=
  match v with
  | JSVal.undef => false
  | JSVal.null => false
  | JSVal.str s => ¬ s.isEmpty

/-- `Number(v)` on validation values: `Number(null)` is `0` and
`Number(undefined)` is `NaN`. -/
def jsValToNumber (v : JSVal) : JSNum :=
  match v with
  | JSVal.undef => JSNum.nan
  | JSVal.null => JSNum.fin 0
  | JSVal.str s => strToNumber s

def REQUIRED_FIELDS : List Str :=
  ["bill_id", "bill_type", "bill_date", "units_of_measure", "consumption", "cost"].map
    String.toList

def ALLOWED_TYPES : List Str := ["Power", "Gas", "Water"].map String.toList

/-- A validation issue `{ row, message }`. -/
structure Issue where
  row : ℕ
  message : Str
deriving DecidableEq

/-- `row[field] === undefined || row[field] === null ||
String(row[field]).trim() === ''`. -/
def isBlankVal (v : JSVal) : Bool :=
  v = JSVal.undef ∨ v = JSVal.null ∨ (jsTrim (jsValToString v)).isEmpty

/-- The required-field pass of `validateRows` for one row. -/
def requiredIssues (rowNumber : ℕ) (row : VRow) : List Issue :=
  REQUIRED_FIELDS.filterMap (fun field =>
    if isBlankVal (vGet row field) then
      some ⟨rowNumber, field ++ " is required".toList⟩
    else none)

/-- `ALLOWED_TYPES.includes(row.bill_type)` (strict equality against
each allowed string). -/
def allowedIncludes (v : JSVal) : Bool :=
  ALLOWED_TYPES.any (fun s => v = JSVal.str s)

/-- The `bill_type` enumeration check of `validateRows` for one row:
note it tests truthiness of the raw value, not the trimmed one. -/
def billTypeIssues (rowNumber : ℕ) (row : VRow) : List Issue :=
  if jsTruthy (vGet row ("bill_type".toList)) ∧
      ¬ allowedIncludes (vGet row ("bill_type".toList)) then
    [⟨rowNumber, "bill_type must be one of: ".toList ++
        List.intercalate (", ".toList) ALLOWED_TYPES⟩]
  else []

def NUMERIC_FIELDS : List Str := ["bill_id", "consumption", "cost"].map String.toList

/-- The numeric pass of `validateRows` for one row: a present,
non-blank value must not coerce to `NaN`. -/
def numericIssues (rowNumber : ℕ) (row : VRow) : List Issue :=
  NUMERIC_FIELDS.filterMap (fun field =>
    let value := vGet row field
    if value ≠ JSVal.undef ∧ value ≠ JSVal.null ∧
        ¬ (jsTrim (jsValToString value)).isEmpty then
      if jsIsNaN (jsValToNumber value) then
        some ⟨rowNumber, field ++ " must be numeric".toList⟩
      else none
    else none)

/-- All issues of one row, in source order. -/
def rowIssues (rowNumber : ℕ) (row : VRow) : List Issue :=
  requiredIssues rowNumber row ++ billTypeIssues rowNumber row ++
    numericIssues rowNumber row

/-- The `rows.forEach((row, idx) => …)` loop, `idx` starting at `start`. -/
def validateRowsFrom (start : ℕ) : List VRow → List Issue
  | [] => []
  | row :: rest => rowIssues (start + 2) row ++ validateRowsFrom (start + 1) rest

/-- `validateRows`. -/
def validateRows (rows : List VRow) : List Issue := validateRowsFrom 0 rows

/-! ## The data-entry workspace state (`DataEntry.jsx`)

The workspace holds `headers` and `rows`, the rows being JS objects
with string values.  Object update `{ ...row, [field]: value }` keeps
the position of an existing key and appends a new key at the end, as
JS objects do. -/

/-- A workspace row: field name to string value. -/
abbrev WRecord := List (Str × Str)

/-- Key lookup in a workspace row. -/
def jsLookup (r : WRecord) (f : Str) : Option Str :=
  match r with
  | [] => none
  | (k, v) :: rest => if k = f then some v else jsLookup rest f

/-- Replace the value of every binding of key `f`, keeping positions. -/
def jsOverwrite : WRecord → Str → Str → WRecord
  | [], _, _ => []
  | (k, w) :: rest, f, v =>
    if k = f then (k, v) :: jsOverwrite rest f v
    else (k, w) :: jsOverwrite rest f v

/-- `{ ...record, [f]: v }` / `record[f] = v`: overwrite an existing
key in place, append a fresh key at the end, as JS objects do. -/
def jsSet (r : WRecord) (f : Str) (v : Str) : WRecord :=
  if (jsLookup r f).isSome then jsOverwrite r f v
  else r ++ [(f, v)]

/-- The keys of a workspace row. -/
def keysOf (r : WRecord) : List Str := r.map Prod.fst

/-- `handleFileSelect`'s keying of one parsed row:
`effectiveHeaders.forEach((header, index) => record[header] = row[index] ?? '')`. -/
def keyByHeaders (headers : List Str) (cells : List Str) : WRecord :=
  (headers.enum).foldl (fun record p => jsSet record p.2 (cells.getD p.1 [])) []

/-- The load path of `handleFileSelect`: parse, pick effective
headers, drop rows whose every cell trims to empty, key the rest. -/
def loadCsv (prevHeaders : List Str) (text : Str) : List Str × List WRecord :=
  let parsed := parseCsv text
  let effectiveHeaders := if ¬ parsed.headers.isEmpty then parsed.headers else prevHeaders
  let sanitizedRows :=
    (parsed.rows.filter (fun row => row.any (fun cell => ¬ (jsTrim cell).isEmpty))).map
      (keyByHeaders effectiveHeaders)
  (effectiveHeaders, sanitizedRows)

/-- `handleAddRow`: append the all-empty template row
`headers.reduce((acc, field) => ({ ...acc, [field]: '' }), {})`. -/
def handleAddRow (headers : List Str) (rows : List WRecord) : List WRecord :=
  rows ++ [headers.foldl (fun acc field => jsSet acc field []) []]

/-- `handleRemoveRow`: `prev.filter((_, idx) => idx !== rowIdx)`. -/
def handleRemoveRow (rows : List WRecord) (rowIdx : ℕ) : List WRecord :=
  ((rows.enum).filter (fun p => p.1 ≠ rowIdx)).map Prod.snd

/-- `handleCellChange`:
`prev.map((row, idx) => (idx === rowIdx ? { ...row, [field]: value } : row))`. -/
def handleCellChange (rows : List WRecord) (rowIdx : ℕ) (field : Str) (value : Str) :
    List WRecord :=
  (rows.enum).map (fun p => if p.1 = rowIdx then jsSet p.2 field value else p.2)

/-! ## Table sorting (`sortedRows` in `Tables.jsx` and the dashboard)

A cell value reaching the comparators is `null`, a number, or a
string (`undef` models an absent property).  `Array.prototype.sort`
is stable with a consistent comparator, so it is modelled by
`List.insertionSort` over `comparator ≤ 0`; the comparator itself is
modelled up to sign, which is all a sort observes. -/

/-- A table cell value as seen by the sort comparators. -/
inductive TVal where
  | undef
  | null
  | num (q : ℚ)
  | str (s : Str)
deriving DecidableEq

/-- `Number(v)` on table values. -/
def jsNumberT (v : TVal) : JSNum :=
  match v with
  | TVal.undef => JSNum.nan
  | TVal.null => JSNum.fin 0
  | TVal.num q => JSNum.fin q
  | TVal.str s => strToNumber s

/-- A non-`NaN` number: the value space of the comparators' resolved
keys (`-Infinity < finite < +Infinity`). -/
inductive ExtNum where
  | negInf
  | fin (q : ℚ)
  | posInf
deriving DecidableEq

/-- Strict order on resolved keys. -/
def extLt (a b : ExtNum) : Bool :=
  match a, b with
  | ExtNum.negInf, ExtNum.negInf => false
  | ExtNum.negInf, _ => true
  | ExtNum.fin _, ExtNum.negInf => false
  | ExtNum.fin p, ExtNum.fin q => p < q
  | ExtNum.fin _, ExtNum.posInf => true
  | ExtNum.posInf, _ => false

/-- View a non-`NaN` `JSNum` as an `ExtNum` (the `nan` case is
unreachable at every use site, which guards it behind `isNaN`). -/
def toExt (n : JSNum) : ExtNum :=
  match n with
  | JSNum.posInf => ExtNum.posInf
  | JSNum.negInf => ExtNum.negInf
  | JSNum.fin q => ExtNum.fin q
  | JSNum.nan => ExtNum.fin 0

/-- The number branch of `Tables.jsx`'s comparator: missing numbers
(by `Number.isNaN`) resolve to a per-direction infinity sentinel; the
sign of `resolvedA - resolvedB` is modelled by `extLt`. -/
def cmpNumber003 (direction : ℤ) (a b : TVal) : ℤ :=
  let numberA := jsNumberT a
  let numberB := jsNumberT b
  let hasNumberA := ¬ jsIsNaN numberA
  let hasNumberB := ¬ jsIsNaN numberB
  if ¬ hasNumberA ∧ ¬ hasNumberB then 0
  else
    let fallback := if direction = 1 then ExtNum.posInf else ExtNum.negInf
    let resolvedA := if hasNumberA then toExt numberA else fallback
    let resolvedB := if hasNumberB then toExt numberB else fallback
    if resolvedA = resolvedB then 0
    else (if extLt resolvedA resolvedB then -1 else 1) * direction

/-- The number branch of the dashboard's comparator
(`Number.isFinite` guards, missing compares `1`/`-1` directly). -/
def cmpNumber002 (direction : ℤ) (a b : TVal) : ℤ :=
  let numberA := jsNumberT a
  let numberB := jsNumberT b
  let hasNumberA := jsIsFinite numberA
  let hasNumberB := jsIsFinite numberB
  if ¬ hasNumberA ∧ ¬ hasNumberB then 0
  else if ¬ hasNumberA then 1
  else if ¬ hasNumberB then -1
  else if numberA = numberB then 0
  else (if extLt (toExt numberA) (toExt numberB) then -1 else 1) * direction

/-- Falsiness of a table value (`!value`). -/
def jsFalsy (v : TVal) : Bool :=
  match v with
  | TVal.undef => true
  | TVal.null => true
  | TVal.num q => q = 0
  | TVal.str s => s.isEmpty

/-- `normaliseDate` of `Tables.jsx`: falsy values give `null`,
otherwise `new Date(value).getTime()` — the `Date` constructor is a
parameter `jsDate` (`none` models an invalid date / `NaN` time). -/
def normaliseDate (jsDate : TVal → Option ℤ) (v : TVal) : Option ℤ :=
  if jsFalsy v then none else jsDate v

/-- `String(value ?? '')` on table values.  Integer-valued numbers
render as their digits; non-integer rationals (never produced by the
claims) render via Lean's rational notation. -/
def jsTextT (v : TVal) : Str :=
  match v with
  | TVal.undef => []
  | TVal.null => []
  | TVal.num q => (toString q).toList
  | TVal.str s => s

/-- ASCII lowercasing, the modelled part of the case-insensitive
(`sensitivity: 'base'`) collator. -/
def toLowerChar (c : Char) : Char :=
  if 'A' ≤ c ∧ c ≤ 'Z' then Char.ofNat (c.toNat + 32) else c

/-- Three-way lexicographic string comparison. -/
def strCompare : Str → Str → ℤ
  | [], [] => 0
  | [], _ :: _ => -1
  | _ :: _, [] => 1
  | a :: as, b :: bs =>
    if a = b then strCompare as bs else if a < b then -1 else 1

/-- Model of `new Intl.Collator('en', { sensitivity: 'base' }).compare`:
case-insensitive lexicographic comparison (locale tailoring and accent
folding are not modelled). -/
def collatorBase (a b : Str) : ℤ :=
  strCompare (a.map toLowerChar) (b.map toLowerChar)

/-- The three `sortType`s of `TABLE_COLUMNS`. -/
inductive SortType where
  | number
  | date
  | string
deriving DecidableEq

/-- The comparator of `Tables.jsx`'s `sortedRows`, applied to the two
extracted sort values. -/
def rowCmp003 (jsDate : TVal → Option ℤ) (sortType : SortType) (direction : ℤ)
    (valueA valueB : TVal) : ℤ :=
  match sortType with
  | SortType.number => cmpNumber003 direction valueA valueB
  | SortType.date =>
    let timeA := normaliseDate jsDate valueA
    let timeB := normaliseDate jsDate valueB
    match timeA, timeB with
    | none, none => 0
    | none, some _ => 1
    | some _, none => -1
    | some tA, some tB =>
      if tA = tB then 0 else (if tA < tB then -1 else 1) * direction
  | SortType.string =>
    let textA := jsTrim (jsTextT valueA)
    let textB := jsTrim (jsTextT valueB)
    let comparison := collatorBase textA textB
    if comparison = 0 then 0 else comparison * direction

/-- `[...rows].sort(comparator)`: ECMAScript sorting is stable, so it
is modelled by a stable sort over `comparator ≤ 0`. -/
def jsSort {β : Type _} (cmp : β → β → ℤ) (rows : List β) : List β :=
  List.insertionSort (fun a b => cmp a b ≤ 0) rows

/-- `sortedRows` of `Tables.jsx`, over an abstract row type `β` with
`getSortValue` extracting the active column's value. -/
def sortedRows003 {β : Type _} (jsDate : TVal → Option ℤ) (sortType : SortType)
    (direction : ℤ) (getSortValue : β → TVal) (rows : List β) : List β :=
  jsSort (fun a b => rowCmp003 jsDate sortType direction (getSortValue a) (getSortValue b))
    rows

/-- The dashboard's `sortedRows` on a number column. -/
def sortedRows002Number {β : Type _} (direction : ℤ) (getSortValue : β → TVal)
    (rows : List β) : List β :=
  jsSort (fun a b => cmpNumber002 direction (getSortValue a) (getSortValue b)) rows

/-- The `/^\d{4}-\d{2}-\d{2}$/` test of the dashboard's
`parseDateValue`. -/
def isIsoDate (s : Str) : Bool :=
  match s with
  | [a, b, c, d, e, f, g, h, i, j] =>
    a.isDigit ∧ b.isDigit ∧ c.isDigit ∧ d.isDigit ∧ e = '-' ∧
      f.isDigit ∧ g.isDigit ∧ h = '-' ∧ i.isDigit ∧ j.isDigit
  | _ => false

/-- The dashboard's `parseDateValue`: falsy values give `null`, a
(necessarily finite) number is already a timestamp, a string is
trimmed (empty gives `null`) and handed to the `Date` constructor —
an ISO `yyyy-mm-dd` string as UTC midnight, anything else verbatim.
The `Date` constructor plus `getTime` is the parameter `jsDateParse`
(`none` modelling a `NaN` time); `Date` instances never occur among
API rows and are not modelled. -/
def parseDateValue (jsDateParse : Str → Option ℚ) (v : TVal) : Option ℚ :=
  if jsFalsy v then none
  else
    match v with
    | TVal.num q => some q
    | TVal.str s =>
      let trimmed := jsTrim s
      if trimmed.isEmpty then none
      else if isIsoDate trimmed then jsDateParse (trimmed ++ "T00:00:00Z".toList)
      else jsDateParse trimmed
    | _ => none

/-- The dashboard's `getDateSortValue`: rows are JS objects, modelled
by a property accessor `getProp`. -/
def getDateSortValue {β : Type _} (jsDateParse : Str → Option ℚ)
    (getProp : β → Str → TVal) (row : β) (key : Str) : Option ℚ :=
  if key = "bill_date".toList then
    parseDateValue jsDateParse (getProp row ("bill_date".toList))
  else if key = "service_period".toList then
    ((parseDateValue jsDateParse (getProp row ("service_start".toList))).or
      (parseDateValue jsDateParse (getProp row ("service_end".toList)))).or
      (parseDateValue jsDateParse (getProp row ("bill_date".toList)))
  else if key = "timestamp_upload".toList then
    parseDateValue jsDateParse (getProp row ("timestamp_upload".toList))
  else none

/-- The text compared by the dashboard's string branch:
`String(key === 'location' ? [city, state, zip].filter(Boolean).join(' ')
: row[key] ?? '').trim()`. -/
def stringSortText002 {β : Type _} (getProp : β → Str → TVal) (key : Str)
    (row : β) : Str :=
  jsTrim (if key = "location".toList then
      List.intercalate [' ']
        (([getProp row ("city".toList), getProp row ("state".toList),
            getProp row ("zip".toList)].filter (fun v => ¬ jsFalsy v)).map jsTextT)
    else jsTextT (getProp row key))

/-- The full comparator of the dashboard's `sortedRows`
(`part_002` lines 1272–1319): `Number.isFinite`-guarded numbers, dates
with the `service_period` end-date tiebreak, and collator-compared
strings.  The source's tiebreak block runs under `timeA === timeB`,
so its fall-through `if (timeA === timeB) return 0` is inlined as the
`else 0`; subtraction signs are modelled by comparisons. -/
def rowCmp002 {β : Type _} (jsDateParse : Str → Option ℚ)
    (getProp : β → Str → TVal) (sortType : SortType) (key : Str)
    (direction : ℤ) (a b : β) : ℤ :=
  match sortType with
  | SortType.number => cmpNumber002 direction (getProp a key) (getProp b key)
  | SortType.date =>
    let timeA := getDateSortValue jsDateParse getProp a key
    let timeB := getDateSortValue jsDateParse getProp b key
    match timeA, timeB with
    | none, none => 0
    | none, some _ => 1
    | some _, none => -1
    | some tA, some tB =>
      if tA = tB ∧ key = "service_period".toList then
        let endA := parseDateValue jsDateParse (getProp a ("service_end".toList))
        let endB := parseDateValue jsDateParse (getProp b ("service_end".toList))
        if endA ≠ endB then
          match endA, endB with
          | none, _ => 1
          | some _, none => -1
          | some eA, some eB => (if eA < eB then -1 else 1) * direction
        else 0
      else if tA = tB then 0
      else (if tA < tB then -1 else 1) * direction
  | SortType.string =>
    collatorBase (stringSortText002 getProp key a) (stringSortText002 getProp key b) *
      direction

/-- The dashboard's `sortedRows` (stable sort by `rowCmp002`). -/
def sortedRows002 {β : Type _} (jsDateParse : Str → Option ℚ)
    (getProp : β → Str → TVal) (sortType : SortType) (key : Str)
    (direction : ℤ) (rows : List β) : List β :=
  jsSort (rowCmp002 jsDateParse getProp sortType key direction) rows

/-- The number sort key of the dashboard comparator: the coerced
number when finite, the shared missing class otherwise. -/
def numKey002 (v : TVal) : Option ℚ :=
  match jsNumberT v with
  | JSNum.fin q => some q
  | _ => none

/-- The resolved sort key of `cmpNumber003`: the coerced number, or
the per-direction infinity sentinel when it is `NaN`. -/
def resolve003 (direction : ℤ) (v : TVal) : ExtNum :=
  if ¬ jsIsNaN (jsNumberT v) then toExt (jsNumberT v)
  else if direction = 1 then ExtNum.posInf else ExtNum.negInf

/-- Order-reversing involution on resolved keys. -/
def extOpp : ExtNum → ExtNum
  | ExtNum.negInf => ExtNum.posInf
  | ExtNum.fin q => ExtNum.fin (-q)
  | ExtNum.posInf => ExtNum.negInf

/-- A direction-adjusted key under which `cmpNumber003 direction` is
the key order for both directions. -/
def sortKey003 (direction : ℤ) (v : TVal) : ExtNum :=
  if direction = 1 then resolve003 direction v else extOpp (resolve003 direction v)

/-- A direction-adjusted key for `cmpNumber002`: non-finite values
collapse to the top sentinel in either direction. -/
def sortKey002 (direction : ℤ) (v : TVal) : ExtNum :=
  match jsNumberT v with
  | JSNum.fin q => ExtNum.fin ((direction : ℚ) * q)
  | _ => ExtNum.posInf

/-! ## Derived notions used by the specification claims -/

/-- A record's key set is exactly the header set. -/
def sameKeySet (r : WRecord) (headers : List Str) : Prop :=
  ∀ h, h ∈ keysOf r ↔ h ∈ headers

/-- The workspace state: current headers and rows. -/
structure Batch where
  headers : List Str
  rows : List WRecord
deriving DecidableEq

/-- `handleCellChange` at the state level (it only updates `rows`). -/
def editCellBatch (b : Batch) (rowIdx : ℕ) (field value : Str) : Batch :=
  ⟨b.headers, handleCellChange b.rows rowIdx field value⟩

/-- The sort key of a table value under each column type: the coerced
number, the normalised date, or collator equality of the trimmed text. -/
def sortKeyEq (jsDate : TVal → Option ℤ) : SortType → TVal → TVal → Prop
  | SortType.number, a, b => jsNumberT a = jsNumberT b
  | SortType.date, a, b => normaliseDate jsDate a = normaliseDate jsDate b
  | SortType.string, a, b => collatorBase (jsTrim (jsTextT a)) (jsTrim (jsTextT b)) = 0

/-- The sort key of a row under the dashboard's comparator: the
finite coerced number (non-finite values share one missing class),
the `getDateSortValue` time together — on the `service_period`
column — with the end-date tiebreak value, or collator equality of
the extracted trimmed text. -/
def sortKeyEq002 {β : Type _} (jsDateParse : Str → Option ℚ)
    (getProp : β → Str → TVal) (sortType : SortType) (key : Str)
    (a b : β) : Prop :=
  match sortType with
  | SortType.number => numKey002 (getProp a key) = numKey002 (getProp b key)
  | SortType.date =>
    getDateSortValue jsDateParse getProp a key =
        getDateSortValue jsDateParse getProp b key ∧
      (key = "service_period".toList →
        parseDateValue jsDateParse (getProp a ("service_end".toList)) =
          parseDateValue jsDateParse (getProp b ("service_end".toList)))
  | SortType.string =>
    collatorBase (stringSortText002 getProp key a) (stringSortText002 getProp key b) = 0

/-- A cell text that survives the CSV round trip: if it contains a
carriage return, it also contains a character that forces quoting. -/
def crSafe (s : Str) : Bool := ¬ ('\r' ∈ s) ∨ needsQuoting s

/-- Every field of the record renders to the empty string. -/
def allRenderEmpty (headers : List Str) (r : Record) : Bool :=
  headers.all (fun h => (renderCell (getField r h)).isEmpty)

/-- Quote-balance scan of one line of tabular content, mirroring the
quote handling of `scanCsv`: the line must contain no unquoted line
separator and must end outside quotes. -/
def goodLineAux : Str → Bool → Bool
  | [], inQuotes => !inQuotes
  | '"' :: '"' :: rest2, true => goodLineAux rest2 true
  | '"' :: rest, true => goodLineAux rest false
  | '"' :: rest, false => goodLineAux rest true
  | '\r' :: _, false => false
  | '\n' :: _, false => false
  | _ :: rest, inQuotes => goodLineAux rest inQuotes

/-- A line of tabular content (no unquoted separators, balanced quotes). -/
def goodLine (line : Str) : Bool := goodLineAux line false

/-! ## Executable sanity checks of the embedded definitions -/

example : parseCsv ("a,b\nc,d".toList) =
    ⟨["a".toList, "b".toList], [["c".toList, "d".toList]]⟩ := by decide

example : parseCsv ("a,b\r\nc\rd".toList) =
    ⟨["a".toList, "b".toList], [["c".toList], ["d".toList]]⟩ := by decide

example : parseCsv ("h\n\"a,b\"\"c\nd\"".toList) =
    ⟨["h".toList], [["a,b\"c\nd".toList]]⟩ := by decide

example : stringifyCsv ["h".toList] [[("h".toList, some ("a,b\"c\nd".toList))]] =
    "h\n\"a,b\"\"c\nd\"".toList := by decide

example : parseCsv (stringifyCsv ["h".toList] [[("h".toList, some ("a\rb".toList))]]) =
    ⟨["h".toList], [["a".toList], ["b".toList]]⟩ := by decide

example : strToNumber ("50".toList) = JSNum.fin 50 := by decide

example : strToNumber ("12.5x".toList) = JSNum.nan := by decide

example : jsIsFinite (strToNumber (" 12.5 ".toList)) = true := by decide

example : strToNumber ("".toList) = JSNum.fin 0 := by decide

example : jsIsFinite (strToNumber ("-2e2".toList)) = true := by decide

example : strToNumber ("Infinity".toList) = JSNum.posInf := by decide

example : jsIsFinite (strToNumber (".5".toList)) = true := by decide

example : strToNumber (".".toList) = JSNum.nan := by decide

example :
    validateRows [[("bill_id".toList, JSVal.str ("7".toList)),
                   ("bill_type".toList, JSVal.str ("Power".toList)),
                   ("bill_date".toList, JSVal.str ("2024-01-01".toList)),
                   ("units_of_measure".toList, JSVal.str ("kWh".toList)),
                   ("consumption".toList, JSVal.str ("12.5".toList)),
                   ("cost".toList, JSVal.str ("99".toList))]] = [] := by decide

example :
    validateRows [[("bill_id".toList, JSVal.str ("7".toList)),
                   ("bill_type".toList, JSVal.str (" ".toList)),
                   ("bill_date".toList, JSVal.str ("2024-01-01".toList)),
                   ("units_of_measure".toList, JSVal.str ("kWh".toList)),
                   ("consumption".toList, JSVal.str ("12.5x".toList)),
                   ("cost".toList, JSVal.str ("99".toList))]] =
      [⟨2, "bill_type is required".toList⟩,
       ⟨2, "bill_type must be one of: Power, Gas, Water".toList⟩,
       ⟨2, "consumption must be numeric".toList⟩] := by decide

example :
    sortedRows003 (fun _ => none) SortType.number 1 id
      [TVal.num 100, TVal.null, TVal.num 50] =
      [TVal.null, TVal.num 50, TVal.num 100] := by decide

example :
    sortedRows003 (fun _ => none) SortType.number (-1) id
      [TVal.num 100, TVal.null, TVal.num 50] =
      [TVal.num 100, TVal.num 50, TVal.null] := by decide

example :
    sortedRows002Number 1 id [TVal.num 100, TVal.null, TVal.num 50] =
      [TVal.null, TVal.num 50, TVal.num 100] := by decide

example :
    sortedRows003 (fun _ => none) SortType.number 1 id
      [TVal.num 100, TVal.undef, TVal.num 50] =
      [TVal.num 50, TVal.num 100, TVal.undef] := by decide

/-! ## Lemmas about `escapeCell` (claim C5) -/

theorem needsQuoting_iff (s : Str) :
    needsQuoting s = true ↔ ('"' ∈ s ∨ ',' ∈ s ∨ '\n' ∈ s) := by
  simp only [needsQuoting, List.any_eq_true, decide_eq_true_eq]
  constructor
  · rintro ⟨c, hc, rfl | rfl | rfl⟩ <;> tauto
  · rintro (h | h | h) <;> exact ⟨_, h, by tauto⟩

/-- C5: `stringifyCsv` renders `null`/`undefined` cells as the empty
string and quote-wraps a cell, doubling embedded quotes, exactly when
the cell text contains a comma, a double quote, or a newline; the
field `a,b"c\nd` stringifies to `"a,b""c\nd"` and parses back to the
original content unchanged. -/
theorem escapeCell_quote_iff :
    escapeCell none = [] ∧
    (∀ s : Str, ('"' ∈ s ∨ ',' ∈ s ∨ '\n' ∈ s) →
      escapeCell (some s) = '"' :: (doubleQuotes s ++ ['"'])) ∧
    (∀ s : Str, ¬ ('"' ∈ s ∨ ',' ∈ s ∨ '\n' ∈ s) → escapeCell (some s) = s) ∧
    stringifyCsv ["h".toList] [[("h".toList, some ("a,b\"c\nd".toList))]] =
      "h\n\"a,b\"\"c\nd\"".toList ∧
    parseCsv (stringifyCsv ["h".toList] [[("h".toList, some ("a,b\"c\nd".toList))]]) =
      ⟨["h".toList], [["a,b\"c\nd".toList]]⟩ := by
  refine ⟨rfl, ?_, ?_, by decide, by decide⟩
  · intro s hs
    have h := (needsQuoting_iff s).2 hs
    simp [escapeCell, renderCell, h]
  · intro s hs
    have h : needsQuoting s = false := by
      cases hq : needsQuoting s
      · rfl
      · exact absurd ((needsQuoting_iff s).1 hq) hs
    simp [escapeCell, renderCell, h]

theorem escapeCell_quote_iff_witness :
    escapeCell (some ("a,b".toList)) = '"' :: (doubleQuotes ("a,b".toList) ++ ['"']) ∧
    escapeCell (some ("ab".toList)) = "ab".toList :=
  ⟨escapeCell_quote_iff.2.1 _ (by decide), escapeCell_quote_iff.2.2.1 _ (by decide)⟩

/-! ## Lemmas about `jsSet` and record keys (claims C8, C9) -/

theorem jsLookup_jsOverwrite_self (r : WRecord) (f v : Str)
    (hs : (jsLookup r f).isSome = true) :
    jsLookup (jsOverwrite r f v) f = some v := by
  induction r with
  | nil => simp [jsLookup] at hs
  | cons p rest ih =>
    obtain ⟨k, w⟩ := p
    by_cases hk : k = f
    · simp [jsLookup, jsOverwrite, hk]
    · simp only [jsLookup, jsOverwrite, if_neg hk] at hs ⊢
      exact ih hs

theorem jsLookup_jsOverwrite_other (r : WRecord) (f v g : Str) (hg : g ≠ f) :
    jsLookup (jsOverwrite r f v) g = jsLookup r g := by
  induction r with
  | nil => rfl
  | cons p rest ih =>
    obtain ⟨k, w⟩ := p
    by_cases hkf : k = f
    · have hkg : ¬ k = g := fun h => hg (h ▸ hkf)
      simp [jsLookup, jsOverwrite, hkf, hkg, ih, Ne.symm hg]
    · by_cases hkg : k = g <;> simp [jsLookup, jsOverwrite, hkf, hkg, ih, hg]

theorem jsLookup_append_single (r : WRecord) (f v g : Str) (hg : g ≠ f) :
    jsLookup (r ++ [(f, v)]) g = jsLookup r g := by
  induction r with
  | nil => simp [jsLookup, Ne.symm hg]
  | cons p rest ih =>
    obtain ⟨k, w⟩ := p
    by_cases hk : k = g <;> simp [jsLookup, hk, ih]

theorem jsLookup_jsSet_self (r : WRecord) (f v : Str) :
    jsLookup (jsSet r f v) f = some v := by
  unfold jsSet
  split_ifs with hs
  · exact jsLookup_jsOverwrite_self r f v hs
  · have hnone : jsLookup r f = none := Option.not_isSome_iff_eq_none.1 hs
    clear hs
    induction r with
    | nil => simp [jsLookup]
    | cons p rest ih =>
      obtain ⟨k, w⟩ := p
      by_cases hk : k = f
      · simp [jsLookup, hk] at hnone
      · simp only [jsLookup, if_neg hk] at hnone
        simp only [List.cons_append, jsLookup, if_neg hk]
        exact ih hnone

theorem jsLookup_jsSet_other (r : WRecord) (f v g : Str) (hg : g ≠ f) :
    jsLookup (jsSet r f v) g = jsLookup r g := by
  unfold jsSet
  split_ifs with hs
  · exact jsLookup_jsOverwrite_other r f v g hg
  · exact jsLookup_append_single r f v g hg

theorem jsLookup_isSome_iff (r : WRecord) (f : Str) :
    (jsLookup r f).isSome = true ↔ f ∈ keysOf r := by
  induction r with
  | nil => simp [jsLookup, keysOf]
  | cons p rest ih =>
    obtain ⟨k, w⟩ := p
    by_cases hk : k = f
    · subst hk; simp [jsLookup, keysOf]
    · simp [jsLookup, keysOf, hk, ih, (show ¬ f = k from fun h => hk h.symm)]

theorem keysOf_jsOverwrite (r : WRecord) (f v : Str) :
    keysOf (jsOverwrite r f v) = keysOf r := by
  induction r with
  | nil => rfl
  | cons p rest ih =>
    obtain ⟨k, w⟩ := p
    by_cases hk : k = f <;> simp [jsOverwrite, keysOf, hk] <;>
      simpa [keysOf] using ih

theorem mem_keysOf_jsSet (r : WRecord) (f v h : Str) :
    h ∈ keysOf (jsSet r f v) ↔ h = f ∨ h ∈ keysOf r := by
  unfold jsSet
  split_ifs with hs
  · have hf : f ∈ keysOf r := (jsLookup_isSome_iff r f).1 hs
    rw [keysOf_jsOverwrite]
    constructor
    · exact Or.inr
    · rintro (rfl | hh)
      · exact hf
      · exact hh
  · simp only [keysOf, List.map_append]
    simp [or_comm]

theorem mem_keysOf_keyFold (L : List (ℕ × Str)) (cells : List Str) (rec : WRecord)
    (h : Str) :
    h ∈ keysOf (L.foldl (fun record p => jsSet record p.2 (cells.getD p.1 [])) rec) ↔
      h ∈ keysOf rec ∨ h ∈ L.map Prod.snd := by
  induction L generalizing rec with
  | nil => simp
  | cons p L ih =>
    rw [List.foldl_cons, ih, mem_keysOf_jsSet]
    simp only [List.map_cons, List.mem_cons]
    tauto

theorem mem_keysOf_keyByHeaders (headers : List Str) (cells : List Str) (h : Str) :
    h ∈ keysOf (keyByHeaders headers cells) ↔ h ∈ headers := by
  rw [keyByHeaders, mem_keysOf_keyFold, List.enum_map_snd]
  simp [keysOf]

theorem mem_keysOf_templateFold (headers : List Str) (rec : WRecord) (h : Str) :
    h ∈ keysOf (headers.foldl (fun acc field => jsSet acc field []) rec) ↔
      h ∈ keysOf rec ∨ h ∈ headers := by
  induction headers generalizing rec with
  | nil => simp
  | cons f headers ih =>
    rw [List.foldl_cons, ih, mem_keysOf_jsSet]
    simp only [List.mem_cons]
    tauto

theorem sameKeySet_jsSet (r : WRecord) (headers : List Str) (field value : Str)
    (hfield : field ∈ headers) (hr : sameKeySet r headers) :
    sameKeySet (jsSet r field value) headers := by
  intro h
  rw [mem_keysOf_jsSet, hr h]
  constructor
  · rintro (rfl | hh)
    · exact hfield
    · exact hh
  · exact Or.inr

/-- C8: the batch invariant — every record's key set is exactly the
current header set, absent values being stored as the empty string
rather than omitted — is established by the load path (keying each
kept row by the effective headers, missing trailing cells defaulting
to `''`) and preserved by `handleAddRow`, `handleRemoveRow`, and
`handleCellChange` for any field of the header set. -/
theorem batch_key_invariant :
    (∀ prevHeaders text r, r ∈ (loadCsv prevHeaders text).2 →
      sameKeySet r (loadCsv prevHeaders text).1) ∧
    (∀ headers rows, (∀ r ∈ rows, sameKeySet r headers) →
      ∀ r ∈ handleAddRow headers rows, sameKeySet r headers) ∧
    (∀ headers rows rowIdx, (∀ r ∈ rows, sameKeySet r headers) →
      ∀ r ∈ handleRemoveRow rows rowIdx, sameKeySet r headers) ∧
    (∀ headers rows rowIdx field value, field ∈ headers →
      (∀ r ∈ rows, sameKeySet r headers) →
      ∀ r ∈ handleCellChange rows rowIdx field value, sameKeySet r headers) := by
  refine ⟨?_, ?_, ?_, ?_⟩
  · intro prevHeaders text r hr
    simp only [loadCsv, List.mem_map] at hr
    obtain ⟨cells, _, rfl⟩ := hr
    intro h
    exact mem_keysOf_keyByHeaders _ cells h
  · intro headers rows hrows r hr
    simp only [handleAddRow, List.mem_append, List.mem_singleton] at hr
    rcases hr with hr | rfl
    · exact hrows r hr
    · intro h
      rw [mem_keysOf_templateFold]
      simp [keysOf]
  · intro headers rows rowIdx hrows r hr
    simp only [handleRemoveRow, List.mem_map, List.mem_filter] at hr
    obtain ⟨p, ⟨hp, _⟩, rfl⟩ := hr
    refine hrows p.2 ?_
    have := List.mem_map_of_mem Prod.snd hp
    rwa [List.enum_map_snd] at this
  · intro headers rows rowIdx field value hfield hrows r hr
    simp only [handleCellChange, List.mem_map] at hr
    obtain ⟨p, hp, rfl⟩ := hr
    have hmem : p.2 ∈ rows := by
      have := List.mem_map_of_mem Prod.snd hp
      rwa [List.enum_map_snd] at this
    by_cases hidx : p.1 = rowIdx
    · rw [if_pos hidx]
      exact sameKeySet_jsSet p.2 headers field value hfield (hrows p.2 hmem)
    · rw [if_neg hidx]
      exact hrows p.2 hmem

theorem batch_key_invariant_witness :
    sameKeySet [("a".toList, [])] ["a".toList] :=
  batch_key_invariant.2.1 ["a".toList] [] (by simp) [("a".toList, [])] (by decide)

/-- C9: `handleCellChange rowIdx field value` changes only the record
at `rowIdx`, and only its `field` key (now `value`); every other
record, every other key of the edited record, and the headers are
unchanged. -/
theorem handleCellChange_frame (rows : List WRecord) (rowIdx : ℕ) (field value : Str)
    (hi : rowIdx < rows.length) :
    (handleCellChange rows rowIdx field value).length = rows.length ∧
    (∀ j, j ≠ rowIdx → (handleCellChange rows rowIdx field value)[j]? = rows[j]?) ∧
    (handleCellChange rows rowIdx field value)[rowIdx]? =
      some (jsSet rows[rowIdx] field value) ∧
    jsLookup (jsSet rows[rowIdx] field value) field = some value ∧
    (∀ g, g ≠ field → jsLookup (jsSet rows[rowIdx] field value) g =
      jsLookup rows[rowIdx] g) ∧
    (∀ b : Batch, (editCellBatch b rowIdx field value).headers = b.headers) := by
  refine ⟨?_, ?_, ?_, jsLookup_jsSet_self _ _ _, ?_, fun _ => rfl⟩
  · simp [handleCellChange]
  · intro j hj
    cases h : rows[j]? with
    | none =>
      simp only [handleCellChange, List.getElem?_map, List.getElem?_enum, h]
      rfl
    | some row =>
      simp only [handleCellChange, List.getElem?_map, List.getElem?_enum, h,
        Option.map_some]
      simp [hj]
  · have h : rows[rowIdx]? = some rows[rowIdx] := List.getElem?_eq_getElem hi
    simp only [handleCellChange, List.getElem?_map, List.getElem?_enum, h,
      Option.map_some]
    simp
  · intro g hg
    exact jsLookup_jsSet_other _ _ _ _ hg

theorem handleCellChange_frame_witness :
    (handleCellChange [[("a".toList, "x".toList)]] 0 ("a".toList) ("y".toList)).length = 1 ∧
    jsLookup (jsSet [("a".toList, "x".toList)] ("a".toList) ("y".toList)) ("a".toList) =
      some ("y".toList) := by
  have h := handleCellChange_frame [[("a".toList, "x".toList)]] 0 ("a".toList)
    ("y".toList) (by decide)
  exact ⟨h.1, h.2.2.2.1⟩

/-! ## The resolved-key order (claims C2, C7) -/

theorem extLt_irrefl (a : ExtNum) : extLt a a = false := by
  cases a <;> simp [extLt]

theorem extLt_asymm (a b : ExtNum) (h : extLt a b = true) : extLt b a = false := by
  cases a <;> cases b <;> simp_all [extLt] <;> linarith

theorem extLt_connex (a b : ExtNum) (h : ¬ a = b) :
    extLt a b = true ∨ extLt b a = true := by
  cases a <;> cases b <;> simp_all [extLt]

theorem extLt_trans (a b c : ExtNum) (h1 : extLt a b = true) (h2 : extLt b c = true) :
    extLt a c = true := by
  cases a <;> cases b <;> cases c <;> simp_all [extLt] <;> linarith

theorem extLt_false_or (x y : ExtNum) : extLt y x = false ∨ extLt x y = false := by
  by_cases h : extLt x y = true
  · left
    exact extLt_asymm x y h
  · right
    simpa using h

theorem extLe_trans (x y z : ExtNum) (h1 : extLt y x = false) (h2 : extLt z y = false) :
    extLt z x = false := by
  by_contra h
  have hz : extLt z x = true := by simpa using h
  by_cases hzy : z = y
  · subst hzy
    rw [hz] at h1
    simp at h1
  · rcases extLt_connex z y hzy with hc | hc
    · rw [hc] at h2
      simp at h2
    · have := extLt_trans y z x hc hz
      rw [this] at h1
      simp at h1

theorem extLt_extOpp (x y : ExtNum) : extLt (extOpp x) (extOpp y) = extLt y x := by
  cases x <;> cases y <;> simp [extOpp, extLt]

theorem extOpp_inj (x y : ExtNum) (h : extOpp x = extOpp y) : x = y := by
  cases x <;> cases y <;> simp_all [extOpp]

theorem cmp003_eq (direction : ℤ) (a b : TVal) :
    cmpNumber003 direction a b =
      if resolve003 direction a = resolve003 direction b then 0
      else (if extLt (resolve003 direction a) (resolve003 direction b) then -1 else 1) *
        direction := by
  unfold cmpNumber003 resolve003
  by_cases hA : jsIsNaN (jsNumberT a) <;> by_cases hB : jsIsNaN (jsNumberT b) <;>
    simp [hA, hB]

theorem cmp003_le_iff (direction : ℤ) (hdir : direction = 1 ∨ direction = -1)
    (a b : TVal) :
    cmpNumber003 direction a b ≤ 0 ↔
      extLt (sortKey003 direction b) (sortKey003 direction a) = false := by
  rw [cmp003_eq]
  rcases hdir with rfl | rfl
  · simp only [sortKey003, if_pos rfl]
    by_cases he : resolve003 1 a = resolve003 1 b
    · simp [he, extLt_irrefl]
    · rcases extLt_connex _ _ he with hlt | hlt
      · simp [he, hlt, extLt_asymm _ _ hlt]
      · have hf : extLt (resolve003 1 a) (resolve003 1 b) = false := extLt_asymm _ _ hlt
        simp [he, hf, hlt]
  · have hne : ((-1 : ℤ) = 1) = False := by norm_num
    simp only [sortKey003, hne, if_false, extLt_extOpp]
    by_cases he : resolve003 (-1) a = resolve003 (-1) b
    · simp [he, extLt_irrefl]
    · rcases extLt_connex _ _ he with hlt | hlt
      · have hf : extLt (resolve003 (-1) b) (resolve003 (-1) a) = false :=
          extLt_asymm _ _ hlt
        simp [he, hlt, hf]
      · have hf : extLt (resolve003 (-1) a) (resolve003 (-1) b) = false :=
          extLt_asymm _ _ hlt
        simp [he, hf, hlt]

theorem cmp002_le_iff (direction : ℤ) (hdir : direction = 1 ∨ direction = -1)
    (a b : TVal) :
    cmpNumber002 direction a b ≤ 0 ↔
      extLt (sortKey002 direction b) (sortKey002 direction a) = false := by
  unfold cmpNumber002 sortKey002
  by_cases hA : jsIsFinite (jsNumberT a) = true <;>
    by_cases hB : jsIsFinite (jsNumberT b) = true
  · obtain ⟨p, hp⟩ : ∃ p, jsNumberT a = JSNum.fin p := by
      cases h : jsNumberT a <;> simp_all [jsIsFinite]
    obtain ⟨q, hq⟩ : ∃ q, jsNumberT b = JSNum.fin q := by
      cases h : jsNumberT b <;> simp_all [jsIsFinite]
    rw [hp, hq]
    simp only [jsIsFinite, toExt, extLt, JSNum.fin.injEq, decide_eq_true_eq,
      not_true, false_and, if_false, not_false_iff, ite_true, ite_false]
    rcases hdir with rfl | rfl <;> rcases lt_trichotomy p q with h | h | h
    · rw [if_neg (ne_of_lt h), if_pos h]
      norm_num
      linarith
    · subst h
      simp
    · rw [if_neg (ne_of_gt h), if_neg (not_lt.2 (le_of_lt h))]
      norm_num
      linarith
    · rw [if_neg (ne_of_lt h), if_pos h]
      norm_num
      linarith
    · subst h
      simp
    · rw [if_neg (ne_of_gt h), if_neg (not_lt.2 (le_of_lt h))]
      norm_num
      linarith
  · obtain ⟨p, hp⟩ : ∃ p, jsNumberT a = JSNum.fin p := by
      cases h : jsNumberT a <;> simp_all [jsIsFinite]
    rw [hp]
    cases h : jsNumberT b <;> simp_all [jsIsFinite, extLt]
  · obtain ⟨q, hq⟩ : ∃ q, jsNumberT b = JSNum.fin q := by
      cases h : jsNumberT b <;> simp_all [jsIsFinite]
    rw [hq]
    cases h : jsNumberT a <;> simp_all [jsIsFinite, extLt]
  · cases h : jsNumberT a <;> cases h2 : jsNumberT b <;>
      simp_all [jsIsFinite, extLt]

theorem jsSort_pairwise_key {β : Type _} (cmp : β → β → ℤ) (K : β → ExtNum)
    (hiff : ∀ x y, cmp x y ≤ 0 ↔ extLt (K y) (K x) = false) (l : List β) :
    (jsSort cmp l).Pairwise (fun x y => cmp x y ≤ 0) := by
  unfold jsSort
  haveI : IsTotal β (fun x y => cmp x y ≤ 0) := by
    refine ⟨fun x y => ?_⟩
    rw [hiff, hiff]
    exact extLt_false_or (K x) (K y)
  haveI : IsTrans β (fun x y => cmp x y ≤ 0) := by
    refine ⟨fun x y z h1 h2 => ?_⟩
    rw [hiff] at h1 h2 ⊢
    exact extLe_trans (K x) (K y) (K z) h1 h2
  exact List.sorted_insertionSort (fun x y => cmp x y ≤ 0) l

theorem cmp003_not_le_of_nan_fin (direction : ℤ) (hdir : direction = 1 ∨ direction = -1)
    (a b : TVal) (hna : jsIsNaN (jsNumberT a) = true)
    (hfb : jsIsFinite (jsNumberT b) = true) :
    ¬ cmpNumber003 direction a b ≤ 0 := by
  obtain ⟨q, hq⟩ : ∃ q, jsNumberT b = JSNum.fin q := by
    cases h : jsNumberT b <;> simp_all [jsIsFinite]
  rw [cmp003_le_iff direction hdir]
  have hrb : resolve003 direction b = ExtNum.fin q := by
    simp [resolve003, hq, jsIsNaN, toExt]
  rcases hdir with rfl | rfl
  · have hra : resolve003 1 a = ExtNum.posInf := by simp [resolve003, hna]
    simp [sortKey003, hra, hrb, extLt]
  · have hra : resolve003 (-1) a = ExtNum.negInf := by
      simp [resolve003, hna]
    have hne : ((-1 : ℤ) = 1) = False := by norm_num
    simp [sortKey003, hne, hra, hrb, extOpp, extLt]

theorem cmp002_not_le_of_nonfin_fin (direction : ℤ) (a b : TVal)
    (hna : jsIsFinite (jsNumberT a) = false)
    (hfb : jsIsFinite (jsNumberT b) = true) :
    ¬ cmpNumber002 direction a b ≤ 0 := by
  unfold cmpNumber002
  simp only [hna, hfb]
  norm_num

/-- C2 (amended): sorting on a number column places every record whose
value coerces to `NaN` (absent values, non-numeric strings) after every
record with a finite numeric value, in both directions and in both
table implementations; `null`, however, coerces to `0` and is ordered
among the numbers, so cost values `[100, null, 50]` sort ascending to
`[null, 50, 100]` (not `[50, 100, null]`) and descending to
`[100, 50, null]`. -/
theorem numberSort_missing_last {β : Type _} (jsDate : TVal → Option ℤ)
    (direction : ℤ) (hdir : direction = 1 ∨ direction = -1)
    (getSortValue : β → TVal) (rows : List β) :
    ((sortedRows003 jsDate SortType.number direction getSortValue rows).Pairwise
      (fun x y => ¬ (jsIsNaN (jsNumberT (getSortValue x)) = true ∧
        jsIsFinite (jsNumberT (getSortValue y)) = true))) ∧
    ((sortedRows002Number direction getSortValue rows).Pairwise
      (fun x y => ¬ (jsIsFinite (jsNumberT (getSortValue x)) = false ∧
        jsIsFinite (jsNumberT (getSortValue y)) = true))) ∧
    sortedRows003 (fun _ => none) SortType.number 1 id
      [TVal.num 100, TVal.null, TVal.num 50] =
      [TVal.null, TVal.num 50, TVal.num 100] ∧
    sortedRows003 (fun _ => none) SortType.number (-1) id
      [TVal.num 100, TVal.null, TVal.num 50] =
      [TVal.num 100, TVal.num 50, TVal.null] ∧
    sortedRows002Number 1 id [TVal.num 100, TVal.null, TVal.num 50] =
      [TVal.null, TVal.num 50, TVal.num 100] ∧
    sortedRows002Number (-1) id [TVal.num 100, TVal.null, TVal.num 50] =
      [TVal.num 100, TVal.num 50, TVal.null] := by
  refine ⟨?_, ?_, by decide, by decide, by decide, by decide⟩
  · have hp := jsSort_pairwise_key
      (fun x y => cmpNumber003 direction (getSortValue x) (getSortValue y))
      (fun x => sortKey003 direction (getSortValue x))
      (fun x y => cmp003_le_iff direction hdir (getSortValue x) (getSortValue y)) rows
    refine List.Pairwise.imp ?_ hp
    intro x y hxy hcon
    exact cmp003_not_le_of_nan_fin direction hdir _ _ hcon.1 hcon.2 hxy
  · have hp := jsSort_pairwise_key
      (fun x y => cmpNumber002 direction (getSortValue x) (getSortValue y))
      (fun x => sortKey002 direction (getSortValue x))
      (fun x y => cmp002_le_iff direction hdir (getSortValue x) (getSortValue y)) rows
    refine List.Pairwise.imp ?_ hp
    intro x y hxy hcon
    exact cmp002_not_le_of_nonfin_fin direction _ _ hcon.1 hcon.2 hxy

theorem numberSort_missing_last_witness :
    (sortedRows003 (fun _ => none) SortType.number 1 (fun v : TVal => v)
      [TVal.num 1, TVal.undef]).Pairwise
      (fun x y => ¬ (jsIsNaN (jsNumberT x) = true ∧ jsIsFinite (jsNumberT y) = true)) :=
  (numberSort_missing_last (fun _ => none) 1 (Or.inl rfl) (fun v : TVal => v)
    [TVal.num 1, TVal.undef]).1

/-- C2 counterexample: with cost values `[100, null, 50]`, the
ascending sort of `Tables.jsx` yields `[null, 50, 100]` — `null`
coerces to the number `0` and sorts first, not last as claimed. -/
theorem numberSort_missing_last_counterexample :
    sortedRows003 (fun _ => none) SortType.number 1 id
      [TVal.num 100, TVal.null, TVal.num 50] =
      [TVal.null, TVal.num 50, TVal.num 100] ∧
    ([TVal.null, TVal.num 50, TVal.num 100] ≠
      [TVal.num 50, TVal.num 100, TVal.null]) := by
  decide

theorem cmpNumber002_eq_zero (direction : ℤ) (va vb : TVal)
    (h : numKey002 va = numKey002 vb) : cmpNumber002 direction va vb = 0 := by
  unfold cmpNumber002
  unfold numKey002 at h
  cases hA : jsNumberT va <;> cases hB : jsNumberT vb <;>
    rw [hA, hB] at h <;> simp_all [jsIsFinite]

theorem rowCmp002_eq_zero {β : Type _} (jsDateParse : Str → Option ℚ)
    (getProp : β → Str → TVal) (sortType : SortType) (key : Str)
    (direction : ℤ) (a b : β)
    (hkey : sortKeyEq002 jsDateParse getProp sortType key a b) :
    rowCmp002 jsDateParse getProp sortType key direction a b = 0 := by
  cases sortType with
  | number =>
    exact cmpNumber002_eq_zero direction _ _ hkey
  | date =>
    obtain ⟨ht, hend⟩ := hkey
    by_cases hsp : key = "service_period".toList
    · subst hsp
      have hE := hend rfl
      cases hB : getDateSortValue jsDateParse getProp b ("service_period".toList) with
      | none =>
        simp only [rowCmp002]
        rw [ht, hB]
      | some t =>
        simp only [rowCmp002]
        rw [ht, hB, hE]
        simp
    · cases hB : getDateSortValue jsDateParse getProp b key with
      | none =>
        simp only [rowCmp002]
        rw [ht, hB]
      | some t =>
        simp only [rowCmp002]
        rw [ht, hB]
        simp at hsp
        simp [hsp]
  | string =>
    have hkey' : collatorBase (stringSortText002 getProp key a)
        (stringSortText002 getProp key b) = 0 := hkey
    simp [rowCmp002, hkey']

/-- C7: for every pair of records whose sort keys under the active
column are equal — for number, date, and string columns alike — the
comparator used to produce `sortedRows` returns exactly `0` and the
sorted output preserves the two records' original relative order, in
both implementations: the `Tables.jsx` comparator, and the dashboard
comparator with its `Number.isFinite` guard and its `service_period`
end-date tiebreak. -/
theorem sortedRows_stable {β : Type _} (jsDate : TVal → Option ℤ)
    (jsDateParse : Str → Option ℚ) (sortType : SortType) (key : Str)
    (direction : ℤ) (getSortValue : β → TVal) (getProp : β → Str → TVal)
    (rows : List β) (a b : β) :
    (sortKeyEq jsDate sortType (getSortValue a) (getSortValue b) →
      rowCmp003 jsDate sortType direction (getSortValue a) (getSortValue b) = 0 ∧
      ([a, b].Sublist rows →
        [a, b].Sublist (sortedRows003 jsDate sortType direction getSortValue rows))) ∧
    (sortKeyEq002 jsDateParse getProp sortType key a b →
      rowCmp002 jsDateParse getProp sortType key direction a b = 0 ∧
      ([a, b].Sublist rows →
        [a, b].Sublist (sortedRows002 jsDateParse getProp sortType key direction rows))) := by
  constructor
  · intro hkey
    have hzero :
        rowCmp003 jsDate sortType direction (getSortValue a) (getSortValue b) = 0 := by
      cases sortType with
      | number =>
        have hkey' : jsNumberT (getSortValue a) = jsNumberT (getSortValue b) := hkey
        simp only [rowCmp003, cmpNumber003, hkey']
        by_cases hn : jsIsNaN (jsNumberT (getSortValue b)) = true <;> simp [hn]
      | date =>
        have hkey' : normaliseDate jsDate (getSortValue a) =
            normaliseDate jsDate (getSortValue b) := hkey
        cases h : normaliseDate jsDate (getSortValue b) <;>
          simp [rowCmp003, hkey', h]
      | string =>
        have hkey' : collatorBase (jsTrim (jsTextT (getSortValue a)))
            (jsTrim (jsTextT (getSortValue b))) = 0 := hkey
        simp [rowCmp003, hkey']
    refine ⟨hzero, fun hsub => ?_⟩
    unfold sortedRows003 jsSort
    refine List.sublist_insertionSort ?_ hsub
    refine List.pairwise_cons.2 ⟨?_, List.pairwise_singleton _ _⟩
    intro y hy
    rw [List.mem_singleton] at hy
    subst hy
    exact le_of_eq hzero
  · intro hkey
    have hzero :=
      rowCmp002_eq_zero jsDateParse getProp sortType key direction a b hkey
    refine ⟨hzero, fun hsub => ?_⟩
    unfold sortedRows002 jsSort
    refine List.sublist_insertionSort ?_ hsub
    refine List.pairwise_cons.2 ⟨?_, List.pairwise_singleton _ _⟩
    intro y hy
    rw [List.mem_singleton] at hy
    subst hy
    exact le_of_eq hzero

/-! ## Counting validation issues (claims C3, C4, C10)

Issue messages of the three validation passes end in distinct
characters (`'d'`, `'r'`, `'c'`), and each row's issues carry that
row's number, so an issue `⟨i + 2, message⟩` is produced by exactly
one pass of exactly one row. -/

theorem getLast?_append_suffix (l s : Str) (c : Char) (h : s.getLast? = some c) :
    (l ++ s).getLast? = some c := by
  rw [List.getLast?_append, h]
  rfl

theorem required_ne_numeric_msg (f g : Str) :
    f ++ " is required".toList ≠ g ++ " must be numeric".toList := by
  intro h
  have h1 : (f ++ " is required".toList).getLast? = some 'd' :=
    getLast?_append_suffix _ _ _ (by decide)
  have h2 : (g ++ " must be numeric".toList).getLast? = some 'c' :=
    getLast?_append_suffix _ _ _ (by decide)
  rw [h, h2] at h1
  exact absurd (Option.some.inj h1) (by decide)

theorem bt_ne_required_msg (f : Str) :
    "bill_type must be one of: Power, Gas, Water".toList ≠
      f ++ " is required".toList := by
  intro h
  have h1 : (f ++ " is required".toList).getLast? = some 'd' :=
    getLast?_append_suffix _ _ _ (by decide)
  rw [← h] at h1
  exact absurd h1 (by decide)

theorem bt_ne_numeric_msg (f : Str) :
    "bill_type must be one of: Power, Gas, Water".toList ≠
      f ++ " must be numeric".toList := by
  intro h
  have h1 : (f ++ " must be numeric".toList).getLast? = some 'c' :=
    getLast?_append_suffix _ _ _ (by decide)
  rw [← h] at h1
  exact absurd h1 (by decide)

theorem btMessage_eq :
    "bill_type must be one of: ".toList ++ List.intercalate (", ".toList) ALLOWED_TYPES =
      "bill_type must be one of: Power, Gas, Water".toList := by decide

theorem count_filterMap_msg_zero (n : ℕ) (suf : Str) (F : Str → Option Issue)
    (L : List Str) (f : Str) (hf : f ∉ L)
    (hshape : ∀ g iss, F g = some iss → iss = ⟨n, g ++ suf⟩) :
    (L.filterMap F).count ⟨n, f ++ suf⟩ = 0 := by
  rw [List.count_eq_zero]
  intro hmem
  rw [List.mem_filterMap] at hmem
  obtain ⟨g, hg, hFg⟩ := hmem
  have hs := hshape g _ hFg
  have hmsg : f ++ suf = g ++ suf := congrArg Issue.message hs
  exact hf (List.append_cancel_right hmsg ▸ hg)

theorem count_filterMap_msg_shape (n : ℕ) (suf : Str) (F : Str → Option Issue)
    (L : List Str) (target : Issue)
    (hshape : ∀ g iss, F g = some iss → iss = ⟨n, g ++ suf⟩)
    (hne : ∀ g, target ≠ ⟨n, g ++ suf⟩) :
    (L.filterMap F).count target = 0 := by
  rw [List.count_eq_zero]
  intro hmem
  rw [List.mem_filterMap] at hmem
  obtain ⟨g, _, hFg⟩ := hmem
  exact hne g (hshape g _ hFg)

theorem count_filterMap_msg (n : ℕ) (suf : Str) (F : Str → Option Issue)
    (L : List Str) (hL : L.Nodup) (f : Str) (hf : f ∈ L)
    (hshape : ∀ g iss, F g = some iss → iss = ⟨n, g ++ suf⟩) :
    (L.filterMap F).count ⟨n, f ++ suf⟩ = if (F f).isSome then 1 else 0 := by
  induction L with
  | nil => cases hf
  | cons g L ih =>
    rw [List.filterMap_cons]
    obtain ⟨hgL, hLnd⟩ := List.nodup_cons.1 hL
    by_cases hfg : f = g
    · subst hfg
      cases hFf : F f with
      | none =>
        simp only [hFf]
        rw [count_filterMap_msg_zero n suf F L f hgL hshape]
        simp [hFf]
      | some iss =>
        have hiss := hshape f iss hFf
        simp only [hFf]
        rw [List.count_cons, count_filterMap_msg_zero n suf F L f hgL hshape]
        simp [hiss, hFf]
    · have hfL : f ∈ L := (List.mem_cons.1 hf).resolve_left hfg
      cases hFg : F g with
      | none =>
        simp only [hFg]
        exact ih hLnd hfL
      | some iss =>
        have hiss := hshape g iss hFg
        simp only [hFg]
        rw [List.count_cons, ih hLnd hfL]
        have hne : ¬ iss = ⟨n, f ++ suf⟩ := by
          rw [hiss]
          intro h
          have hmsg : g ++ suf = f ++ suf := by
            simpa using congrArg Issue.message h
          exact hfg (List.append_cancel_right hmsg).symm
        simp [hne]

theorem mem_rowIssues_row (n : ℕ) (r : VRow) (iss : Issue)
    (h : iss ∈ rowIssues n r) : iss.row = n := by
  unfold rowIssues requiredIssues billTypeIssues numericIssues at h
  simp only [List.mem_append, List.mem_filterMap] at h
  rcases h with (⟨g, _, hFg⟩ | h) | ⟨g, _, hFg⟩
  · split_ifs at hFg
    rw [Option.some_inj] at hFg
    rw [← hFg]
  · split_ifs at h
    · rw [List.mem_singleton] at h
      rw [h]
    · cases h
  · split_ifs at hFg
    rw [Option.some_inj] at hFg
    rw [← hFg]

theorem validateRowsFrom_row_ge (k : ℕ) (rows : List VRow) (iss : Issue)
    (h : iss ∈ validateRowsFrom k rows) : k + 2 ≤ iss.row := by
  induction rows generalizing k with
  | nil => cases h
  | cons r rs ih =>
    simp only [validateRowsFrom, List.mem_append] at h
    rcases h with h | h
    · rw [mem_rowIssues_row _ _ _ h]
    · have := ih (k + 1) h
      omega

theorem count_rowIssues_ne_row (n m : ℕ) (r : VRow) (msg : Str) (hmn : m ≠ n) :
    (rowIssues n r).count ⟨m, msg⟩ = 0 := by
  rw [List.count_eq_zero]
  intro hmem
  exact hmn (mem_rowIssues_row n r ⟨m, msg⟩ hmem)

theorem count_validateRowsFrom (rows : List VRow) (k i : ℕ) (hi : i < rows.length)
    (msg : Str) :
    (validateRowsFrom k rows).count ⟨k + i + 2, msg⟩ =
      (rowIssues (k + i + 2) (rows.get ⟨i, hi⟩)).count ⟨k + i + 2, msg⟩ := by
  induction rows generalizing k i with
  | nil => exact absurd hi (Nat.not_lt_zero i)
  | cons r rs ih =>
    simp only [validateRowsFrom]
    rw [List.count_append]
    cases i with
    | zero =>
      have hz : (validateRowsFrom (k + 1) rs).count ⟨k + 0 + 2, msg⟩ = 0 := by
        rw [List.count_eq_zero]
        intro hmem
        have := validateRowsFrom_row_ge (k + 1) rs _ hmem
        simp only at this
        omega
      rw [hz]
      simp [List.get]
    | succ j =>
      have hj : j < rs.length := by simpa using hi
      have h0 : (rowIssues (k + 2) r).count ⟨k + (j + 1) + 2, msg⟩ = 0 :=
        count_rowIssues_ne_row _ _ _ _ (by omega)
      rw [h0]
      have harr : k + (j + 1) + 2 = (k + 1) + j + 2 := by omega
      rw [harr]
      rw [ih (k + 1) j hj]
      simp [List.get]

theorem requiredIssues_shape (n : ℕ) (r : VRow) :
    ∀ g iss, (if isBlankVal (vGet r g) then
        some (⟨n, g ++ " is required".toList⟩ : Issue) else none) = some iss →
      iss = ⟨n, g ++ " is required".toList⟩ := by
  intro g iss h
  split_ifs at h
  exact (Option.some.inj h).symm

theorem numericIssues_shape (n : ℕ) (r : VRow) :
    ∀ g iss, (let value := vGet r g
      if value ≠ JSVal.undef ∧ value ≠ JSVal.null ∧
          ¬ (jsTrim (jsValToString value)).isEmpty then
        if jsIsNaN (jsValToNumber value) then
          some (⟨n, g ++ " must be numeric".toList⟩ : Issue)
        else none
      else none) = some iss →
      iss = ⟨n, g ++ " must be numeric".toList⟩ := by
  intro g iss h
  dsimp only at h
  split_ifs at h
  exact (Option.some.inj h).symm

theorem count_required_rowIssues (n : ℕ) (r : VRow) (f : Str)
    (hf : f ∈ REQUIRED_FIELDS) :
    (rowIssues n r).count ⟨n, f ++ " is required".toList⟩ =
      if isBlankVal (vGet r f) then 1 else 0 := by
  unfold rowIssues
  rw [List.count_append, List.count_append]
  have hnodup : REQUIRED_FIELDS.Nodup := by decide
  have h1 : (requiredIssues n r).count ⟨n, f ++ " is required".toList⟩ =
      if isBlankVal (vGet r f) then 1 else 0 := by
    unfold requiredIssues
    rw [count_filterMap_msg n (" is required".toList) _ REQUIRED_FIELDS hnodup f hf
      (requiredIssues_shape n r)]
    by_cases hb : isBlankVal (vGet r f) = true <;> simp [hb]
  have h2 : (billTypeIssues n r).count ⟨n, f ++ " is required".toList⟩ = 0 := by
    unfold billTypeIssues
    split_ifs
    · rw [List.count_eq_zero]
      intro hmem
      rw [List.mem_singleton] at hmem
      have hmsg := congrArg Issue.message hmem
      simp only at hmsg
      rw [btMessage_eq] at hmsg
      exact bt_ne_required_msg f hmsg.symm
    · rfl
  have h3 : (numericIssues n r).count ⟨n, f ++ " is required".toList⟩ = 0 := by
    unfold numericIssues
    refine count_filterMap_msg_shape n (" must be numeric".toList) _ NUMERIC_FIELDS _
      (numericIssues_shape n r) ?_
    intro g h
    exact required_ne_numeric_msg f g (by simpa using congrArg Issue.message h)
  rw [h1, h2, h3]
  omega

theorem count_numeric_rowIssues (n : ℕ) (r : VRow) (f : Str)
    (hf : f ∈ NUMERIC_FIELDS) :
    (rowIssues n r).count ⟨n, f ++ " must be numeric".toList⟩ =
      if (vGet r f ≠ JSVal.undef ∧ vGet r f ≠ JSVal.null ∧
          ¬ (jsTrim (jsValToString (vGet r f))).isEmpty ∧
          jsIsNaN (jsValToNumber (vGet r f)) = true) then 1 else 0 := by
  unfold rowIssues
  rw [List.count_append, List.count_append]
  have h1 : (requiredIssues n r).count ⟨n, f ++ " must be numeric".toList⟩ = 0 := by
    unfold requiredIssues
    refine count_filterMap_msg_shape n (" is required".toList) _ REQUIRED_FIELDS _
      (requiredIssues_shape n r) ?_
    intro g h
    have hmsg : f ++ " must be numeric".toList = g ++ " is required".toList := by
      simpa using congrArg Issue.message h
    exact required_ne_numeric_msg g f hmsg.symm
  have h2 : (billTypeIssues n r).count ⟨n, f ++ " must be numeric".toList⟩ = 0 := by
    unfold billTypeIssues
    split_ifs
    · rw [List.count_eq_zero]
      intro hmem
      rw [List.mem_singleton] at hmem
      have hmsg := congrArg Issue.message hmem
      simp only at hmsg
      rw [btMessage_eq] at hmsg
      exact bt_ne_numeric_msg f hmsg.symm
    · rfl
  have hnodup : NUMERIC_FIELDS.Nodup := by decide
  have h3 : (numericIssues n r).count ⟨n, f ++ " must be numeric".toList⟩ =
      if (vGet r f ≠ JSVal.undef ∧ vGet r f ≠ JSVal.null ∧
          ¬ (jsTrim (jsValToString (vGet r f))).isEmpty ∧
          jsIsNaN (jsValToNumber (vGet r f)) = true) then 1 else 0 := by
    unfold numericIssues
    rw [count_filterMap_msg n (" must be numeric".toList) _ NUMERIC_FIELDS hnodup f hf
      (numericIssues_shape n r)]
    by_cases hu : vGet r f = JSVal.undef <;> by_cases hn : vGet r f = JSVal.null <;>
      by_cases he : jsTrim (jsValToString (vGet r f)) = [] <;>
        by_cases hnan : jsIsNaN (jsValToNumber (vGet r f)) = true <;>
          simp [hu, hn, he, hnan]
  rw [h1, h2, h3]
  omega

theorem count_billtype_rowIssues (n : ℕ) (r : VRow) :
    (rowIssues n r).count ⟨n, "bill_type must be one of: Power, Gas, Water".toList⟩ =
      if (jsTruthy (vGet r ("bill_type".toList)) = true ∧
          ¬ allowedIncludes (vGet r ("bill_type".toList)) = true) then 1 else 0 := by
  unfold rowIssues
  rw [List.count_append, List.count_append]
  have h1 : (requiredIssues n r).count
      ⟨n, "bill_type must be one of: Power, Gas, Water".toList⟩ = 0 := by
    unfold requiredIssues
    refine count_filterMap_msg_shape n (" is required".toList) _ REQUIRED_FIELDS _
      (requiredIssues_shape n r) ?_
    intro g h
    exact bt_ne_required_msg g (by simpa using congrArg Issue.message h)
  have h3 : (numericIssues n r).count
      ⟨n, "bill_type must be one of: Power, Gas, Water".toList⟩ = 0 := by
    unfold numericIssues
    refine count_filterMap_msg_shape n (" must be numeric".toList) _ NUMERIC_FIELDS _
      (numericIssues_shape n r) ?_
    intro g h
    exact bt_ne_numeric_msg g (by simpa using congrArg Issue.message h)
  have h2 : (billTypeIssues n r).count
      ⟨n, "bill_type must be one of: Power, Gas, Water".toList⟩ =
      if (jsTruthy (vGet r ("bill_type".toList)) = true ∧
          ¬ allowedIncludes (vGet r ("bill_type".toList)) = true) then 1 else 0 := by
    unfold billTypeIssues
    split_ifs with hc
    · rw [btMessage_eq]
      simp
    · rfl
  rw [h1, h2, h3]
  omega

/-! ## Stepping lemmas for the CSV scanner (claims C1, C6) -/

theorem scanCsv_open (rest : Str) (f : Str) (r : List Str) (rows : List (List Str)) :
    scanCsv ('"' :: rest) false f r rows = scanCsv rest true f r rows := by
  rw [scanCsv.eq_def]
  split <;> first | rfl | aesop

theorem scanCsv_close (rest : Str) (f : Str) (r : List Str) (rows : List (List Str))
    (h : rest.head? ≠ some '"') :
    scanCsv ('"' :: rest) true f r rows = scanCsv rest false f r rows := by
  rw [scanCsv.eq_def]
  split <;> first | rfl | aesop

theorem scanCsv_pair (rest : Str) (f : Str) (r : List Str) (rows : List (List Str)) :
    scanCsv ('"' :: '"' :: rest) true f r rows =
      scanCsv rest true (f ++ ['"']) r rows := by
  rw [scanCsv.eq_def]
  split <;> first | rfl | aesop

theorem scanCsv_comma (rest : Str) (f : Str) (r : List Str) (rows : List (List Str)) :
    scanCsv (',' :: rest) false f r rows = scanCsv rest false [] (r ++ [f]) rows := by
  rw [scanCsv.eq_def]
  split <;> first | rfl | aesop

theorem scanCsv_lf (rest : Str) (f : Str) (r : List Str) (rows : List (List Str)) :
    scanCsv ('\n' :: rest) false f r rows =
      scanCsv rest false [] [] (pushRow (r ++ [f]) rows) := by
  rw [scanCsv.eq_def]
  split <;> first | rfl | aesop

theorem scanCsv_crlf (rest : Str) (f : Str) (r : List Str) (rows : List (List Str)) :
    scanCsv ('\r' :: '\n' :: rest) false f r rows =
      scanCsv rest false [] [] (pushRow (r ++ [f]) rows) := by
  rw [scanCsv.eq_def]
  split <;> first | rfl | aesop

theorem scanCsv_cr (rest : Str) (f : Str) (r : List Str) (rows : List (List Str))
    (h : rest.head? ≠ some '\n') :
    scanCsv ('\r' :: rest) false f r rows =
      scanCsv rest false [] [] (pushRow (r ++ [f]) rows) := by
  rw [scanCsv.eq_def]
  split <;> first | rfl | aesop

theorem scanCsv_acc_quoted (c : Char) (rest : Str) (f : Str) (r : List Str)
    (rows : List (List Str)) (h : c ≠ '"') :
    scanCsv (c :: rest) true f r rows = scanCsv rest true (f ++ [c]) r rows := by
  rw [scanCsv.eq_def]
  split <;> first | rfl | aesop

theorem scanCsv_acc_plain (c : Char) (rest : Str) (f : Str) (r : List Str)
    (rows : List (List Str)) (h1 : c ≠ '"') (h2 : c ≠ ',') (h3 : c ≠ '\r')
    (h4 : c ≠ '\n') :
    scanCsv (c :: rest) false f r rows = scanCsv rest false (f ++ [c]) r rows := by
  rw [scanCsv.eq_def]
  split <;> first | rfl | aesop

theorem goodLineAux_close (rest : Str)
    (hne : ∀ rest2, rest = '"' :: rest2 → False) :
    goodLineAux ('"' :: rest) true = goodLineAux rest false := by
  rw [goodLineAux.eq_def]
  split <;> first | rfl | aesop

theorem goodLineAux_open (rest : Str) :
    goodLineAux ('"' :: rest) false = goodLineAux rest true := by
  rw [goodLineAux.eq_def]
  split <;> first | rfl | aesop

theorem goodLineAux_acc (c : Char) (rest : Str) (q : Bool) (h1 : c ≠ '"')
    (h2 : ¬ (c = '\r' ∧ q = false)) (h3 : ¬ (c = '\n' ∧ q = false)) :
    goodLineAux (c :: rest) q = goodLineAux rest q := by
  rw [goodLineAux.eq_def]
  split <;> first | rfl | aesop

theorem append_head?_ne (rest X : Str) (c : Char)
    (hne : ∀ rest2, rest = c :: rest2 → False) (hX : X.head? ≠ some c) :
    (rest ++ X).head? ≠ some c := by
  cases rest with
  | nil => simpa using hX
  | cons d tail =>
    simp only [List.cons_append, List.head?]
    intro h
    exact hne tail (by rw [Option.some.inj h])

theorem intercalate_single (sep x : Str) : List.intercalate sep [x] = x := by
  simp [List.intercalate]

theorem intercalate_cons₂ (sep x y : Str) (zs : List Str) :
    List.intercalate sep (x :: y :: zs) = x ++ sep ++ List.intercalate sep (y :: zs) := by
  simp [List.intercalate, List.intersperse]

/-- Scanning one balanced line followed by any of the three line
terminators (or the end of the text) ends the current row identically:
the row pushed depends only on the line and the state, not on the
terminator used. -/
theorem scanCsv_goodLine (line : Str) (inQuotes : Bool) :
    ∀ (field : Str) (row : List Str), goodLineAux line inQuotes = true →
      ∃ newRow : List Str,
        (∀ rest rows, scanCsv (line ++ '\n' :: rest) inQuotes field row rows =
          scanCsv rest false [] [] (pushRow newRow rows)) ∧
        (∀ rest rows, scanCsv (line ++ '\r' :: '\n' :: rest) inQuotes field row rows =
          scanCsv rest false [] [] (pushRow newRow rows)) ∧
        (∀ rest rows, rest.head? ≠ some '\n' →
          scanCsv (line ++ '\r' :: rest) inQuotes field row rows =
            scanCsv rest false [] [] (pushRow newRow rows)) ∧
        (∀ rows, scanCsv line inQuotes field row rows = pushRow newRow rows) := by
  induction line, inQuotes using goodLineAux.induct with
  | case1 q =>
    intro field row hgood
    have hq : q = false := by simpa [goodLineAux] using hgood
    subst hq
    refine ⟨row ++ [field], ?_, ?_, ?_, ?_⟩
    · intro rest rows
      simp only [List.nil_append]
      exact scanCsv_lf rest field row rows
    · intro rest rows
      simp only [List.nil_append]
      exact scanCsv_crlf rest field row rows
    · intro rest rows hhead
      simp only [List.nil_append]
      exact scanCsv_cr rest field row rows hhead
    · intro rows
      rfl
  | case2 rest2 ih =>
    intro field row hgood
    have hg : goodLineAux rest2 true = true := by
      rw [show goodLineAux ('"' :: '"' :: rest2) true = goodLineAux rest2 true from rfl]
        at hgood
      exact hgood
    obtain ⟨nr, h1, h2, h3, h4⟩ := ih (field ++ ['"']) row hg
    refine ⟨nr, ?_, ?_, ?_, ?_⟩
    · intro rest rows
      simp only [List.cons_append]
      rw [scanCsv_pair, h1]
    · intro rest rows
      simp only [List.cons_append]
      rw [scanCsv_pair, h2]
    · intro rest rows hhead
      simp only [List.cons_append]
      rw [scanCsv_pair, h3 rest rows hhead]
    · intro rows
      rw [scanCsv_pair, h4]
  | case3 rest hne ih =>
    intro field row hgood
    have hg : goodLineAux rest false = true := by
      rw [goodLineAux_close rest hne] at hgood
      exact hgood
    obtain ⟨nr, h1, h2, h3, h4⟩ := ih field row hg
    refine ⟨nr, ?_, ?_, ?_, ?_⟩
    · intro rest' rows
      simp only [List.cons_append]
      rw [scanCsv_close _ _ _ _ (append_head?_ne rest _ _ hne (by simp)), h1]
    · intro rest' rows
      simp only [List.cons_append]
      rw [scanCsv_close _ _ _ _ (append_head?_ne rest _ _ hne (by simp)), h2]
    · intro rest' rows hhead
      simp only [List.cons_append]
      rw [scanCsv_close _ _ _ _ (append_head?_ne rest _ _ hne (by simp)),
        h3 rest' rows hhead]
    · intro rows
      have := scanCsv_close rest field row rows
        (by
          intro h
          cases hh : rest with
          | nil => rw [hh] at h; simp at h
          | cons d tail =>
            rw [hh] at h
            simp only [List.head?] at h
            exact hne tail (by rw [hh, Option.some.inj h]))
      rw [this, h4]
  | case4 rest ih =>
    intro field row hgood
    have hg : goodLineAux rest true = true := by
      rw [goodLineAux_open rest] at hgood
      exact hgood
    obtain ⟨nr, h1, h2, h3, h4⟩ := ih field row hg
    refine ⟨nr, ?_, ?_, ?_, ?_⟩
    · intro rest' rows
      simp only [List.cons_append]
      rw [scanCsv_open, h1]
    · intro rest' rows
      simp only [List.cons_append]
      rw [scanCsv_open, h2]
    · intro rest' rows hhead
      simp only [List.cons_append]
      rw [scanCsv_open, h3 rest' rows hhead]
    · intro rows
      rw [scanCsv_open, h4]
  | case5 tail =>
    intro field row hgood
    exact absurd hgood (by rw [show goodLineAux ('\r' :: tail) false = false from rfl]; simp)
  | case6 tail =>
    intro field row hgood
    exact absurd hgood (by rw [show goodLineAux ('\n' :: tail) false = false from rfl]; simp)
  | case7 head rest q hc1 hc2 hc3 hc4 hc5 ih =>
    intro field row hgood
    have hq : head ≠ '"' := by
      intro h
      cases q with
      | true => exact hc2 h rfl
      | false => exact hc3 h rfl
    have hg : goodLineAux rest q = true := by
      rw [goodLineAux_acc head rest q hq (by rintro ⟨rfl, rfl⟩; exact hc4 rfl rfl)
        (by rintro ⟨rfl, rfl⟩; exact hc5 rfl rfl)] at hgood
      exact hgood
    by_cases hcomma : head = ',' ∧ q = false
    · obtain ⟨rfl, rfl⟩ := hcomma
      obtain ⟨nr, h1, h2, h3, h4⟩ := ih [] (row ++ [field]) hg
      refine ⟨nr, ?_, ?_, ?_, ?_⟩
      · intro rest' rows
        simp only [List.cons_append]
        rw [scanCsv_comma, h1]
      · intro rest' rows
        simp only [List.cons_append]
        rw [scanCsv_comma, h2]
      · intro rest' rows hhead
        simp only [List.cons_append]
        rw [scanCsv_comma, h3 rest' rows hhead]
      · intro rows
        rw [scanCsv_comma, h4]
    · obtain ⟨nr, h1, h2, h3, h4⟩ := ih (field ++ [head]) row hg
      have hstep : ∀ (X : Str) (rows : List (List Str)),
          scanCsv (head :: X) q field row rows =
            scanCsv X q (field ++ [head]) row rows := by
        intro X rows
        cases q with
        | true => exact scanCsv_acc_quoted head _ field row rows hq
        | false =>
          refine scanCsv_acc_plain head _ field row rows hq ?_ ?_ ?_
          · intro h
            exact hcomma ⟨h, rfl⟩
          · intro h
            exact hc4 h rfl
          · intro h
            exact hc5 h rfl
      refine ⟨nr, ?_, ?_, ?_, ?_⟩
      · intro rest' rows
        simp only [List.cons_append]
        rw [hstep, h1]
      · intro rest' rows
        simp only [List.cons_append]
        rw [hstep, h2]
      · intro rest' rows hhead
        simp only [List.cons_append]
        rw [hstep, h3 rest' rows hhead]
      · intro rows
        rw [hstep, h4]

/-! ## Scanning back a stringified cell, line, and text (claim C1) -/

theorem scanCsv_bare (s : Str) (hq : needsQuoting s = false) (hr : '\r' ∉ s) :
    ∀ (rest f : Str) (r : List Str) (rows : List (List Str)),
      scanCsv (s ++ rest) false f r rows = scanCsv rest false (f ++ s) r rows := by
  induction s with
  | nil =>
    intro rest f r rows
    simp
  | cons c tail ih =>
    intro rest f r rows
    have hq' := hq
    simp only [needsQuoting, List.any_cons, Bool.or_eq_false_iff,
      decide_eq_false_iff_not] at hq'
    obtain ⟨hc, htail⟩ := hq'
    push_neg at hc
    obtain ⟨hc1, hc2, hc3⟩ := hc
    have hr1 : c ≠ '\r' := by
      intro h
      exact hr (h ▸ List.mem_cons_self c tail)
    have hrtail : '\r' ∉ tail := fun h => hr (List.mem_cons_of_mem c h)
    rw [List.cons_append, scanCsv_acc_plain c _ f r rows hc1 hc2 hr1.symm.symm hc3,
      ih htail hrtail rest (f ++ [c]) r rows]
    simp

theorem scanCsv_quoted (s : Str) :
    ∀ (rest f : Str) (r : List Str) (rows : List (List Str)),
      rest.head? ≠ some '"' →
      scanCsv ((doubleQuotes s ++ ['"']) ++ rest) true f r rows =
        scanCsv rest false (f ++ s) r rows := by
  induction s with
  | nil =>
    intro rest f r rows h
    simp only [doubleQuotes, List.nil_append, List.cons_append]
    rw [scanCsv_close rest f r rows h]
    simp
  | cons c tail ih =>
    intro rest f r rows h
    by_cases hc : c = '"'
    · subst hc
      simp only [doubleQuotes, eq_self_iff_true, ite_true, List.cons_append]
      rw [scanCsv_pair, ih rest (f ++ ['"']) r rows h]
      simp
    · simp only [doubleQuotes, if_neg hc, List.cons_append]
      rw [scanCsv_acc_quoted c _ f r rows hc, ih rest (f ++ [c]) r rows h]
      simp

theorem scanCsv_cell (v : Option Str) (hcr : crSafe (renderCell v) = true) :
    ∀ (rest f : Str) (r : List Str) (rows : List (List Str)),
      rest.head? ≠ some '"' →
      scanCsv (escapeCell v ++ rest) false f r rows =
        scanCsv rest false (f ++ renderCell v) r rows := by
  intro rest f r rows hhead
  simp only [crSafe, decide_eq_true_eq] at hcr
  unfold escapeCell
  cases hq : needsQuoting (renderCell v) with
  | false =>
    have hr : '\r' ∉ renderCell v := by
      rcases hcr with hcr | hcr
      · exact hcr
      · rw [hq] at hcr
        cases hcr
    simp only [hq, Bool.false_eq_true, ite_false]
    exact scanCsv_bare (renderCell v) hq hr rest f r rows
  | true =>
    simp only [hq, ite_true, List.cons_append]
    rw [scanCsv_open]
    exact scanCsv_quoted (renderCell v) rest f r rows hhead

theorem pushRow_nonempty (row : List Str) (rows : List (List Str)) (h : row ≠ []) :
    pushRow row rows = rows ++ [row] := by
  simp [pushRow, h]

theorem scanCsv_csvLine (cells : List (Option Str)) (hne : cells ≠ [])
    (hcr : ∀ v ∈ cells, crSafe (renderCell v) = true) :
    (∀ (rest : Str) (r : List Str) (rows : List (List Str)),
      scanCsv (csvLine cells ++ '\n' :: rest) false [] r rows =
        scanCsv rest false [] [] (pushRow (r ++ cells.map renderCell) rows)) ∧
    (∀ (r : List Str) (rows : List (List Str)),
      scanCsv (csvLine cells) false [] r rows =
        pushRow (r ++ cells.map renderCell) rows) := by
  induction cells with
  | nil => exact absurd rfl hne
  | cons v cs ih =>
    have hv : crSafe (renderCell v) = true := hcr v (List.mem_cons_self v cs)
    cases cs with
    | nil =>
      have hline : csvLine [v] = escapeCell v := by
        simp [csvLine, intercalate_single]
      constructor
      · intro rest r rows
        rw [hline, scanCsv_cell v hv ('\n' :: rest) [] r rows (by simp), scanCsv_lf]
        simp
      · intro r rows
        rw [hline]
        have := scanCsv_cell v hv [] [] r rows (by simp)
        rw [List.append_nil] at this
        rw [this]
        simp [scanCsv]
    | cons v2 cs2 =>
      have hline : csvLine (v :: v2 :: cs2) =
          escapeCell v ++ ',' :: csvLine (v2 :: cs2) := by
        simp only [csvLine, List.map_cons]
        rw [show (escapeCell v :: escapeCell v2 :: List.map escapeCell cs2) =
          escapeCell v :: (escapeCell v2 :: List.map escapeCell cs2) from rfl,
          intercalate_cons₂]
        simp [List.append_assoc]
      have ihcs := ih (by simp) (fun w hw => hcr w (List.mem_cons_of_mem v hw))
      constructor
      · intro rest r rows
        rw [hline, List.append_assoc, List.cons_append,
          scanCsv_cell v hv _ [] r rows (by simp), scanCsv_comma,
          ihcs.1 rest (r ++ [[] ++ renderCell v]) rows]
        simp
      · intro r rows
        rw [hline, scanCsv_cell v hv _ [] r rows (by simp), scanCsv_comma,
          ihcs.2 (r ++ [[] ++ renderCell v]) rows]
        simp

theorem scanCsv_csvLines (lines : List (List (Option Str))) (hne : lines ≠ [])
    (hnel : ∀ cs ∈ lines, cs ≠ [])
    (hcr : ∀ cs ∈ lines, ∀ v ∈ cs, crSafe (renderCell v) = true) :
    ∀ rows, scanCsv (List.intercalate ['\n'] (lines.map csvLine)) false [] [] rows =
      rows ++ lines.map (fun cs => cs.map renderCell) := by
  induction lines with
  | nil => exact absurd rfl hne
  | cons cs ls ih =>
    intro rows
    have hcs : cs ≠ [] := hnel cs (List.mem_cons_self cs ls)
    have hcscr : ∀ v ∈ cs, crSafe (renderCell v) = true :=
      hcr cs (List.mem_cons_self cs ls)
    have hrow : cs.map renderCell ≠ [] := by
      intro h
      exact hcs (List.map_eq_nil_iff.1 h)
    cases ls with
    | nil =>
      simp only [List.map_cons, List.map_nil]
      rw [intercalate_single, (scanCsv_csvLine cs hcs hcscr).2 [] rows]
      rw [pushRow_nonempty _ _ (by simpa using hrow)]
      simp
    | cons cs2 ls2 =>
      simp only [List.map_cons]
      rw [intercalate_cons₂, List.append_assoc]
      simp only [List.cons_append, List.nil_append]
      rw [(scanCsv_csvLine cs hcs hcscr).1 _ [] rows]
      simp only [List.nil_append]
      rw [pushRow_nonempty _ _ (by simpa using hrow)]
      have := ih (by simp) (fun x hx => hnel x (List.mem_cons_of_mem cs hx))
        (fun x hx => hcr x (List.mem_cons_of_mem cs hx)) (rows ++ [cs.map renderCell])
      simp only [List.map_cons] at this
      rw [this]
      simp

theorem dropTrailingEmptyRows_eq_self (rows : List (List Str))
    (h : ∀ r, rows.getLast? = some r → isEmptyRow r = false) :
    dropTrailingEmptyRows rows = rows := by
  unfold dropTrailingEmptyRows
  cases hrev : rows.reverse with
  | nil =>
    rw [List.reverse_eq_nil_iff] at hrev
    simp [hrev]
  | cons r rest =>
    have hlast : rows.getLast? = some r := by
      rw [← List.head?_reverse, hrev]
      rfl
    have hr := h r hlast
    have hdw : List.dropWhile isEmptyRow (r :: rest) = r :: rest := by
      rw [List.dropWhile_cons, hr]
      simp
    rw [hdw, ← hrev, List.reverse_reverse]

theorem jsLookup_keyFoldFrom (g : Str → Str) (cells : List Str) (L : List Str) :
    ∀ (n : ℕ) (rec : WRecord),
      (∀ i (hi : i < L.length), cells.getD (n + i) [] = g (L.get ⟨i, hi⟩)) →
      ∀ h, jsLookup ((List.enumFrom n L).foldl
          (fun record p => jsSet record p.2 (cells.getD p.1 [])) rec) h =
        if h ∈ L then some (g h) else jsLookup rec h := by
  induction L with
  | nil =>
    intro n rec _ h
    simp
  | cons f L ih =>
    intro n rec hcells h
    rw [List.enumFrom_cons, List.foldl_cons]
    have h0 : cells.getD n [] = g f := by
      have := hcells 0 (by simp)
      simpa using this
    dsimp only
    rw [h0]
    rw [ih (n + 1) (jsSet rec f (g f)) ?_ h]
    · by_cases hL : h ∈ L
      · simp [hL, List.mem_cons]
      · by_cases hf : h = f
        · subst hf
          simp [hL, jsLookup_jsSet_self]
        · simp [hL, hf, jsLookup_jsSet_other rec f (g f) h hf]
    · intro i hi
      have := hcells (i + 1) (by simpa using Nat.succ_lt_succ hi)
      have harith : n + (i + 1) = n + 1 + i := by omega
      rw [harith] at this
      simpa using this

theorem jsLookup_keyByHeaders_map (H : List Str) (g : Str → Str) (h : Str)
    (hh : h ∈ H) :
    jsLookup (keyByHeaders H (H.map g)) h = some (g h) := by
  unfold keyByHeaders
  rw [List.enum_eq_enumFrom]
  rw [jsLookup_keyFoldFrom g (H.map g) H 0 [] ?_ h]
  · simp [hh]
  · intro i hi
    rw [Nat.zero_add, List.getD_eq_getElem?_getD, List.getElem?_map,
      List.getElem?_eq_getElem hi]
    rfl

theorem head?_intercalate_cr (l2 : Str) (ls2 : List Str)
    (h2good : goodLine l2 = true) :
    (List.intercalate ['\r'] (l2 :: ls2)).head? ≠ some '\n' := by
  cases l2 with
  | nil =>
    cases ls2 with
    | nil => simp [intercalate_single]
    | cons y zs =>
      rw [intercalate_cons₂]
      simp
  | cons c tail =>
    have hcne : c ≠ '\n' := by
      intro h
      subst h
      exact absurd h2good (by
        rw [show goodLine ('\n' :: tail) = false from rfl]
        simp)
    cases ls2 with
    | nil =>
      rw [intercalate_single]
      simp only [List.head?]
      exact fun hh => hcne (Option.some.inj hh)
    | cons y zs =>
      rw [intercalate_cons₂]
      simp only [List.cons_append, List.head?]
      exact fun hh => hcne (Option.some.inj hh)

theorem scanCsv_intercalate (lines : List Str) :
    (∀ l ∈ lines, goodLine l = true) → ∀ rows,
      scanCsv (List.intercalate ['\r', '\n'] lines) false [] [] rows =
        scanCsv (List.intercalate ['\n'] lines) false [] [] rows ∧
      scanCsv (List.intercalate ['\r'] lines) false [] [] rows =
        scanCsv (List.intercalate ['\n'] lines) false [] [] rows := by
  induction lines with
  | nil =>
    intro _ rows
    exact ⟨rfl, rfl⟩
  | cons l ls ih =>
    intro hgood rows
    cases ls with
    | nil =>
      rw [intercalate_single, intercalate_single, intercalate_single]
      exact ⟨rfl, rfl⟩
    | cons l2 ls2 =>
      have hl : goodLineAux l false = true := hgood l (List.mem_cons_self _ _)
      obtain ⟨nr, h1, h2, h3, _⟩ := scanCsv_goodLine l false [] [] hl
      have hrec := ih (fun x hx => hgood x (List.mem_cons_of_mem _ hx)) (pushRow nr rows)
      constructor
      · rw [intercalate_cons₂, intercalate_cons₂, List.append_assoc, List.append_assoc]
        simp only [List.cons_append, List.nil_append]
        rw [h2, h1]
        exact hrec.1
      · rw [intercalate_cons₂, intercalate_cons₂, List.append_assoc, List.append_assoc]
        simp only [List.cons_append, List.nil_append]
        rw [h3 _ rows (head?_intercalate_cr l2 ls2
          (hgood l2 (List.mem_cons_of_mem _ (List.mem_cons_self _ _)))), h1]
        exact hrec.2

theorem isEmptyRow_render (H : List Str) (r : Record) :
    isEmptyRow (H.map (fun h => renderCell (getField r h))) = allRenderEmpty H r := by
  simp only [isEmptyRow, allRenderEmpty, List.all_map]
  rfl

/-- C1 (amended): provided every header and every rendered cell that
contains a carriage return also contains a quote-forcing character
(comma, double quote, or newline), no trailing record renders
all-empty, and — when there are no records — the header row does not
render all-empty, `parseCsv (stringifyCsv H R)` returns headers `H`
and one data row per record holding exactly the rendered cell values
(`null`/`undefined` rendered as the empty string); keying such a row
by `H` recovers each record field-for-field. -/
theorem parse_stringify_roundtrip (H : List Str) (R : List Record)
    (hcrH : ∀ h ∈ H, crSafe h = true)
    (hcrR : ∀ r ∈ R, ∀ h ∈ H, crSafe (renderCell (getField r h)) = true)
    (htrail : ∀ r, R.getLast? = some r → allRenderEmpty H r = false)
    (hhead : R = [] → H = [] ∨ H.all (fun h => h.isEmpty) = false) :
    parseCsv (stringifyCsv H R) =
      ⟨H, R.map (fun r => H.map (fun h => renderCell (getField r h)))⟩ ∧
    (∀ r ∈ R, ∀ h ∈ H,
      jsLookup (keyByHeaders H (H.map (fun h2 => renderCell (getField r h2)))) h =
        some (renderCell (getField r h))) := by
  refine ⟨?_, fun r _ h hh => jsLookup_keyByHeaders_map H _ h hh⟩
  by_cases hH : H = []
  · subst hH
    have hR : R = [] := by
      cases hRc : R with
      | nil => rfl
      | cons r0 R' =>
        obtain ⟨rl, hrl⟩ : ∃ rl, R.getLast? = some rl := by
          rw [hRc]
          exact ⟨_, List.getLast?_eq_getLast _ (by simp)⟩
        have hlast := htrail rl hrl
        rw [show allRenderEmpty [] rl = true from rfl] at hlast
        cases hlast
    subst hR
    decide
  · have hstring : stringifyCsv H R =
        List.intercalate ['\n']
          (((H.map some) :: R.map (fun r => H.map (fun h => getField r h))).map csvLine) := by
      unfold stringifyCsv
      simp only [List.map_cons, List.map_map]
      rfl
    have hnel : ∀ cs ∈ (H.map some) :: R.map (fun r => H.map (fun h => getField r h)),
        cs ≠ [] := by
      intro cs hcs
      rcases List.mem_cons.1 hcs with rfl | hcs
      · simpa using hH
      · obtain ⟨r, _, rfl⟩ := List.mem_map.1 hcs
        simpa using hH
    have hcr : ∀ cs ∈ (H.map some) :: R.map (fun r => H.map (fun h => getField r h)),
        ∀ v ∈ cs, crSafe (renderCell v) = true := by
      intro cs hcs v hv
      rcases List.mem_cons.1 hcs with rfl | hcs
      · obtain ⟨h, hmem, rfl⟩ := List.mem_map.1 hv
        exact hcrH h hmem
      · obtain ⟨r, hr, rfl⟩ := List.mem_map.1 hcs
        obtain ⟨h, hmem, rfl⟩ := List.mem_map.1 hv
        exact hcrR r hr h hmem
    have hscan2 : scanCsv (stringifyCsv H R) false [] [] [] =
        H :: R.map (fun r => H.map (fun h => renderCell (getField r h))) := by
      rw [hstring, scanCsv_csvLines _ (by simp) hnel hcr []]
      simp only [List.nil_append, List.map_cons, List.map_map]
      congr 1
      · rw [show (renderCell ∘ some : Str → Str) = fun a => a from rfl, List.map_id']
      · refine List.map_congr_left fun r _ => ?_
        simp [Function.comp, List.map_map]
    have hlastcond : ∀ r,
        (H :: R.map (fun r => H.map (fun h => renderCell (getField r h)))).getLast? =
          some r → isEmptyRow r = false := by
      intro r hr
      cases R with
      | nil =>
        simp only [List.map_nil] at hr
        have hrH : H = r := by simpa using hr
        subst hrH
        rcases hhead rfl with h | h
        · exact absurd h hH
        · exact h
      | cons r0 R' =>
        cases hm : List.map (fun r => H.map (fun h => renderCell (getField r h)))
            (r0 :: R') with
        | nil => simp at hm
        | cons d D =>
          rw [hm, List.getLast?_cons_cons, ← hm, List.getLast?_map,
            List.getLast?_eq_getLast (r0 :: R') (by simp)] at hr
          simp only [Option.map_some] at hr
          have hrval := Option.some.inj hr
          rw [← hrval, isEmptyRow_render]
          exact htrail _ (List.getLast?_eq_getLast (r0 :: R') (by simp))
    unfold parseCsv
    rw [hscan2, dropTrailingEmptyRows_eq_self _ hlastcond]

/-- C1 counterexample: a record whose only cell is `a\rb` (a bare
carriage return, no quote-forcing character) stringifies to `h\na\rb`;
`escapeCell` leaves the `\r` unquoted, the parser treats it as a line
terminator, and the single record comes back as two rows — the
round trip does not reconstruct `R`. -/
theorem parse_stringify_roundtrip_counterexample :
    (parseCsv (stringifyCsv ["h".toList]
      [[("h".toList, some ("a\rb".toList))]])).rows.length = 2 ∧
    ([[("h".toList, some ("a\rb".toList))]] : List Record).length = 1 := by
  decide

theorem parse_stringify_roundtrip_witness :
    parseCsv (stringifyCsv ["h".toList] [[("h".toList, some ("x".toList))]]) =
      ⟨["h".toList], ([[("h".toList, some ("x".toList))]] : List Record).map
        (fun r => ["h".toList].map (fun h => renderCell (getField r h)))⟩ := by
  have h := parse_stringify_roundtrip ["h".toList] [[("h".toList, some ("x".toList))]]
    (by decide) (by decide)
    (by
      intro r hr
      have hrv := Option.some.inj hr
      subst hrv
      decide)
    (by
      intro h
      cases h)
  exact h.1

/-- C6: parsing identical tabular content encoded with `\n`, `\r\n`,
and bare `\r` line terminators (terminators outside quoted fields)
produces identical `{ headers, rows }` results; in particular a `\r\n`
pair is consumed as a single terminator and never yields an extra
empty row for the `\n` half. -/
theorem parseCsv_line_endings (lines : List Str)
    (hgood : ∀ l ∈ lines, goodLine l = true) :
    parseCsv (List.intercalate ['\r', '\n'] lines) =
      parseCsv (List.intercalate ['\n'] lines) ∧
    parseCsv (List.intercalate ['\r'] lines) =
      parseCsv (List.intercalate ['\n'] lines) := by
  have h := scanCsv_intercalate lines hgood []
  unfold parseCsv
  rw [h.1, h.2]
  exact ⟨rfl, rfl⟩

theorem parseCsv_line_endings_witness :
    parseCsv (List.intercalate ['\r', '\n'] ["a,b".toList, "c".toList]) =
      parseCsv (List.intercalate ['\n'] ["a,b".toList, "c".toList]) ∧
    parseCsv (List.intercalate ['\r'] ["a,b".toList, "c".toList]) =
      parseCsv (List.intercalate ['\n'] ["a,b".toList, "c".toList]) :=
  parseCsv_line_endings ["a,b".toList, "c".toList] (by decide)

/-- C3: for every record in the batch and each of the six required
fields, `validateRows` emits exactly one issue
`{ row: index + 2, message: "<field> is required" }` if and only if the
record's value for that field is undefined, null, or trims to the empty
string, and no such issue otherwise. -/
theorem validateRows_required (rows : List VRow) (i : ℕ) (hi : i < rows.length)
    (f : Str) (hf : f ∈ REQUIRED_FIELDS) :
    (validateRows rows).count ⟨i + 2, f ++ " is required".toList⟩ =
      if isBlankVal (vGet (rows.get ⟨i, hi⟩) f) then 1 else 0 := by
  have h := count_validateRowsFrom rows 0 i hi (f ++ " is required".toList)
  simp only [Nat.zero_add] at h
  rw [validateRows, h]
  exact count_required_rowIssues (i + 2) _ f hf

theorem validateRows_required_witness :
    (validateRows [[("bill_id".toList, JSVal.str ("7".toList))]]).count
      ⟨2, "bill_id".toList ++ " is required".toList⟩ = 0 := by
  have h := validateRows_required [[("bill_id".toList, JSVal.str ("7".toList))]] 0
    (by decide) ("bill_id".toList) (by decide)
  rw [h]
  decide

/-- C4 (amended): for `bill_id`, `consumption`, `cost` — a present,
non-blank value produces the issue `"<field> must be numeric"` exactly
when `Number(value)` is `NaN`; a blank or absent value produces no
numeric issue.  A value coercing to `±Infinity` (e.g. `"Infinity"`) is
accepted, because the code tests `Number.isNaN`, not finiteness. -/
theorem validateRows_numeric (rows : List VRow) (i : ℕ) (hi : i < rows.length)
    (f : Str) (hf : f ∈ NUMERIC_FIELDS) :
    (validateRows rows).count ⟨i + 2, f ++ " must be numeric".toList⟩ =
      if (vGet (rows.get ⟨i, hi⟩) f ≠ JSVal.undef ∧
          vGet (rows.get ⟨i, hi⟩) f ≠ JSVal.null ∧
          ¬ (jsTrim (jsValToString (vGet (rows.get ⟨i, hi⟩) f))).isEmpty ∧
          jsIsNaN (jsValToNumber (vGet (rows.get ⟨i, hi⟩) f)) = true) then 1 else 0 := by
  have h := count_validateRowsFrom rows 0 i hi (f ++ " must be numeric".toList)
  simp only [Nat.zero_add] at h
  rw [validateRows, h]
  exact count_numeric_rowIssues (i + 2) _ f hf

theorem validateRows_numeric_witness :
    (validateRows [[("consumption".toList, JSVal.str ("12.5x".toList))]]).count
      ⟨2, "consumption".toList ++ " must be numeric".toList⟩ = 1 := by
  have h := validateRows_numeric [[("consumption".toList, JSVal.str ("12.5x".toList))]]
    0 (by decide) ("consumption".toList) (by decide)
  rw [h]
  decide

/-- C4 counterexample: a record with `consumption = "Infinity"` has a
present, non-blank value that does not parse as a finite number, yet
`validateRows` emits no `"consumption must be numeric"` issue — the
code checks `Number.isNaN(Number(value))`, and `Number("Infinity")` is
`Infinity`, not `NaN`. -/
theorem validateRows_numeric_counterexample :
    jsIsFinite (jsValToNumber (JSVal.str ("Infinity".toList))) = false ∧
    ¬ (jsTrim (jsValToString (JSVal.str ("Infinity".toList)))).isEmpty ∧
    (validateRows [[("consumption".toList, JSVal.str ("Infinity".toList))]]).count
      ⟨2, "consumption must be numeric".toList⟩ = 0 := by
  decide

/-- C10: a record whose `bill_type` is a non-empty all-whitespace
string is double-reported: the required rule trims the value, while the
enumeration rule tests the untrimmed value's truthiness, so both
`"bill_type is required"` and
`"bill_type must be one of: Power, Gas, Water"` are emitted once for
that record's row. -/
theorem validateRows_billtype_doubled (rows : List VRow) (i : ℕ)
    (hi : i < rows.length) (s : Str)
    (hty : vGet (rows.get ⟨i, hi⟩) ("bill_type".toList) = JSVal.str s)
    (hne : ¬ s.isEmpty = true) (hws : s.all isJsWhitespace = true) :
    (validateRows rows).count
      ⟨i + 2, "bill_type".toList ++ " is required".toList⟩ = 1 ∧
    (validateRows rows).count
      ⟨i + 2, "bill_type must be one of: Power, Gas, Water".toList⟩ = 1 := by
  constructor
  · have h := count_validateRowsFrom rows 0 i hi
      ("bill_type".toList ++ " is required".toList)
    simp only [Nat.zero_add] at h
    rw [validateRows, h, count_required_rowIssues (i + 2) _ _ (by decide), hty]
    have h1 : s.dropWhile isJsWhitespace = [] := by
      refine List.dropWhile_eq_nil_iff.2 ?_
      intro x hx
      exact (List.all_eq_true.1 hws) x hx
    rw [if_pos (by simp [isBlankVal, jsValToString, jsTrim, h1])]
  · have h := count_validateRowsFrom rows 0 i hi
      ("bill_type must be one of: Power, Gas, Water".toList)
    simp only [Nat.zero_add] at h
    rw [validateRows, h, count_billtype_rowIssues (i + 2) _, hty]
    have ht : jsTruthy (JSVal.str s) = true := by simp [jsTruthy, hne]
    have hinc : allowedIncludes (JSVal.str s) = false := by
      simp only [allowedIncludes, ALLOWED_TYPES]
      simp only [List.map_cons, List.map_nil, List.any_cons, List.any_nil,
        Bool.or_false, Bool.or_eq_false_iff, decide_eq_false_iff_not]
      refine ⟨?_, ?_, ?_⟩ <;> intro hcon <;> rw [JSVal.str.injEq] at hcon <;>
        subst hcon <;> exact absurd hws (by decide)
    rw [if_pos ⟨ht, by simp [hinc]⟩]

theorem validateRows_billtype_doubled_witness :
    (validateRows [[("bill_type".toList, JSVal.str (" ".toList))]]).count
      ⟨2, "bill_type".toList ++ " is required".toList⟩ = 1 ∧
    (validateRows [[("bill_type".toList, JSVal.str (" ".toList))]]).count
      ⟨2, "bill_type must be one of: Power, Gas, Water".toList⟩ = 1 :=
  validateRows_billtype_doubled [[("bill_type".toList, JSVal.str (" ".toList))]] 0
    (by decide) (" ".toList) (by decide) (by decide) (by decide)

theorem sortedRows_stable_witness :
    rowCmp003 (fun _ => none) SortType.date 1 (TVal.num 5) (TVal.num 5) = 0 ∧
    [0, 1].Sublist (sortedRows003 (fun _ => none) SortType.date 1
      (fun _ : ℕ => TVal.num 5) [0, 1]) ∧
    rowCmp002 (fun _ => none) (fun (_ : ℕ) (_ : Str) => TVal.num 5) SortType.date
      ("service_period".toList) 1 0 1 = 0 ∧
    [0, 1].Sublist (sortedRows002 (fun _ => none)
      (fun (_ : ℕ) (_ : Str) => TVal.num 5) SortType.date
      ("service_period".toList) 1 [0, 1]) := by
  have h := sortedRows_stable (fun _ => none) (fun _ => none) SortType.date
    ("service_period".toList) 1 (fun _ : ℕ => TVal.num 5)
    (fun (_ : ℕ) (_ : Str) => TVal.num 5) [0, 1] 0 1
  have h3 := h.1 rfl
  have h2 := h.2 ⟨rfl, fun _ => rfl⟩
  exact ⟨h3.1, h3.2 (List.Sublist.refl _), h2.1, h2.2 (List.Sublist.refl _)⟩

end SustainSync
